import Mathlib

set_option maxRecDepth 10000

/-!
Verification of the mcp-resume repository's file-access library, serverless
adapter and chat client against its natural-language specification.

The JavaScript/TypeScript sources are shallowly embedded: JS strings are
modelled as Lean `String` (sequences of Unicode scalar values; the
repository's literals are BMP-only except one emoji that is built
explicitly, so JS UTF-16 lengths coincide with `String.length` on all
relevant data), the POSIX filesystem is a finite tree, asynchronous
filesystem calls become total functions returning `Except` together with
the list of paths they touched, and external built-ins (the network, the
JSON parser, locale date formatting) are oracle parameters.
-/

/-! ## JS string primitives (modelled over `List Char`) -/

/-- Characters of a string, as a list. -/
def chars (s : String) : List Char := s.data

/-- List-level prefix test. -/
def isPrefixCh : List Char → List Char → Bool
  | [], _ => true
  | _ :: _, [] => false
  | a :: as, b :: bs => a = b && isPrefixCh as bs

/-- JS `s.startsWith(p)`. -/
def jsStartsWith (s p : String) : Bool := isPrefixCh p.data s.data

/-- JS `s.endsWith(p)`. -/
def jsEndsWith (s p : String) : Bool := isPrefixCh p.data.reverse s.data.reverse

/-- List-level substring containment. -/
def containsSub (h n : List Char) : Bool :=
  match h with
  | [] => isPrefixCh n []
  | _ :: t => isPrefixCh n h || containsSub t n

/-- JS `s.includes(sub)` (substring containment, no pattern semantics). -/
def strIncludes (s sub : String) : Bool := containsSub s.data sub.data

/-- JS `s.toLowerCase()`, restricted to ASCII letters (all case-carrying
characters that reach `toLowerCase` in this repository are ASCII). -/
def jsToLower (s : String) : String := String.mk (s.data.map Char.toLower)

/-- Split a character list at every occurrence of `sep`, keeping empty
pieces, as JS `String.prototype.split` with a single-character separator. -/
def splitOnCh (sep : Char) : List Char → List (List Char)
  | [] => [[]]
  | c :: rest =>
    let r := splitOnCh sep rest
    if c = sep then [] :: r
    else
      match r with
      | h :: t => (c :: h) :: t
      | [] => [[c]]

/-- JS `s.split(sep)` for a one-character separator. -/
def strSplit (s : String) (sep : Char) : List String :=
  (splitOnCh sep s.data).map String.mk

/-- JS `s.substring(0, n)` (the only form the repository uses). -/
def jsSubstring (s : String) (n : Nat) : String := String.mk (s.data.take n)

/-- JS length of a string. The repository's data is BMP-only, where the
UTF-16 code-unit count equals the scalar count. -/
def jsLength (s : String) : Nat := s.data.length

/-- The whitespace class JS `\s` recognises on the data appearing in this
repository (ASCII whitespace plus NBSP and BOM). -/
def jsWS (c : Char) : Bool :=
  c = ' ' || c = '\t' || c = '\n' || c = '\r' || c = '\x0b' ||
  c = '\x0c' || c.toNat = 0xA0 || c.toNat = 0xFEFF

/-- JS `s.replace(/\s+$/, '')`: drop trailing whitespace. -/
def rtrimWS (s : String) : String :=
  String.mk (s.data.reverse.dropWhile jsWS).reverse

/-- JS `s.trim()`. -/
def jsTrim (s : String) : String :=
  String.mk (((s.data.dropWhile jsWS).reverse.dropWhile jsWS).reverse)

/-- JS `s || d` for strings: `d` when `s` is empty (falsy), else `s`. -/
def jsOr (s d : String) : String := if s = "" then d else s

/-! ## Node `path` module (POSIX flavour), as used by the repository -/

/-- Split a path string on `/`. -/
def splitPath (s : String) : List String := strSplit s '/'

/-- Normalise path components: drop empty and `.` pieces, let `..` pop the
previous component (staying at the root of an absolute path). -/
def normComps (cs : List String) : List String :=
  cs.foldl
    (fun acc c =>
      if c = "" || c = "." then acc
      else if c = ".." then acc.dropLast
      else acc ++ [c])
    []

/-- Rebuild an absolute path from components (the empty list is `/`). -/
def joinComps (cs : List String) : String :=
  "/" ++ String.intercalate "/" cs

/-- Node `path.resolve(base, p)` where `base` is already absolute: an
absolute `p` is normalised on its own, otherwise it is resolved against
`base`. -/
def presolve (base p : String) : String :=
  if jsStartsWith p "/" then joinComps (normComps (splitPath p))
  else joinComps (normComps (splitPath (base ++ "/" ++ p)))

/-- Drop the common prefix of two component lists. -/
def dropCommonPre : List String → List String → List String × List String
  | a :: as, b :: bs =>
    if a = b then dropCommonPre as bs else (a :: as, b :: bs)
  | as, bs => (as, bs)

/-- Node `path.relative(f, t)` for absolute `f`, `t`. -/
def prelative (f t : String) : String :=
  let p := dropCommonPre (normComps (splitPath f)) (normComps (splitPath t))
  String.intercalate "/" (p.1.map (fun _ => "..") ++ p.2)

/-- Node `path.basename(p)`: the last non-empty component (`""` for the
root). -/
def pbasename (p : String) : String :=
  match ((splitPath p).filter (fun c => c ≠ "")).getLast? with
  | some c => c
  | none => ""

/-- Node `path.join(dir, name)` specialised to its uses in the repository:
`dir` is a resolved absolute path and `name` a single `readdir` entry name
(never empty, never containing `/`, never `.` or `..`). -/
def pjoin (dir name : String) : String :=
  if jsEndsWith dir "/" then dir ++ name else dir ++ "/" ++ name

/-- Node `path.extname(p)`: the suffix of the basename from its last dot,
empty when the dot is leading or absent (and for the special name `..`). -/
def pextname (p : String) : String :=
  let b := pbasename p
  if b = ".." then ""
  else
    let cs := b.data
    match cs.reverse.findIdx? (fun c => c = '.') with
    | none => ""
    | some k =>
      let i := cs.length - 1 - k
      if i = 0 then "" else String.mk (cs.drop i)

/-! ## Filesystem model

A finite tree of directories and files.  File contents are strings; sizes
are their lengths (contents relevant to the claims are ASCII, where bytes
and characters coincide).  Each node carries a `readable` flag so that
permission failures (`EACCES`) can be exercised.  `mtime` is the stored
modification timestamp rendered by an oracle formatter where needed. -/

mutual
inductive FsNode where
  | file (content : String) (readable : Bool) (mtime : String) : FsNode
  | dir (readable : Bool) (children : FsEntries) : FsNode
  deriving Repr
inductive FsEntries where
  | nil : FsEntries
  | cons (name : String) (node : FsNode) (rest : FsEntries) : FsEntries
  deriving Repr
end

/-- Look up an immediate child by name. -/
def FsEntries.find : FsEntries → String → Option FsNode
  | .nil, _ => none
  | .cons n node rest, k => if n = k then some node else rest.find k

/-- Directory entries as a list of `(name, node)` pairs, in order. -/
def FsEntries.toPairs : FsEntries → List (String × FsNode)
  | .nil => []
  | .cons n node rest => (n, node) :: rest.toPairs

/-- Whether a node is a directory (Node's `dirent.isDirectory()`). -/
def FsNode.isDir : FsNode → Bool
  | .dir _ _ => true
  | .file _ _ _ => false

/-- Walk a component list down the tree. -/
def lookupGo (node : FsNode) : List String → Option FsNode
  | [] => some node
  | c :: cs =>
    match node with
    | .dir _ ch =>
      match ch.find c with
      | some n => lookupGo n cs
      | none => none
    | .file _ _ _ => none

/-- Resolve an absolute path in the tree rooted at `fs`. -/
def lookupNode (fs : FsNode) (p : String) : Option FsNode :=
  lookupGo fs (normComps (splitPath p))

/-- The `errno`-style failures the modelled `fs.promises` calls produce. -/
inductive FsErr where
  | enoent | eacces | eisdir | enotdir
  deriving Repr, DecidableEq

/-- A human-readable message for a raised filesystem error, as carried by
the corresponding Node `Error` (the exact wording is never relied on by a
theorem; no fixture raises one into an output string). -/
def fsErrMessage (e : FsErr) (p : String) : String :=
  match e with
  | .enoent => "ENOENT: no such file or directory, open '" ++ p ++ "'"
  | .eacces => "EACCES: permission denied, open '" ++ p ++ "'"
  | .eisdir => "EISDIR: illegal operation on a directory, read '" ++ p ++ "'"
  | .enotdir => "ENOTDIR: not a directory, scandir '" ++ p ++ "'"

/-- `fs.promises.access(p, R_OK)`. -/
def accessR (fs : FsNode) (p : String) : Except FsErr Unit :=
  match lookupNode fs p with
  | none => .error .enoent
  | some (.file _ r _) => if r then .ok () else .error .eacces
  | some (.dir r _) => if r then .ok () else .error .eacces

/-- `fs.promises.readFile(p, 'utf-8')`. -/
def readFileFs (fs : FsNode) (p : String) : Except FsErr String :=
  match lookupNode fs p with
  | none => .error .enoent
  | some (.file c r _) => if r then .ok c else .error .eacces
  | some (.dir _ _) => .error .eisdir

/-- `fs.promises.readdir(p, { withFileTypes: true })`: entry names with
their `isDirectory()` classification. -/
def readdirFs (fs : FsNode) (p : String) : Except FsErr (List (String × Bool)) :=
  match lookupNode fs p with
  | none => .error .enoent
  | some (.file _ _ _) => .error .enotdir
  | some (.dir r ch) =>
    if r then .ok (ch.toPairs.map (fun e => (e.1, e.2.isDir))) else .error .eacces

/-- The slice of Node `fs.Stats` the repository reads. -/
structure FsStat where
  size : Nat
  isDir : Bool
  mtime : String
  deriving Repr

/-- `fs.promises.stat(p)`. -/
def statFs (fs : FsNode) (p : String) : Except FsErr FsStat :=
  match lookupNode fs p with
  | none => .error .enoent
  | some (.file c _ m) => .ok ⟨c.data.length, false, m⟩
  | some (.dir _ _) => .ok ⟨0, true, ""⟩

/-! ## Hardened file-access library (`src/file-operations.ts`) -/

/-- Errors escaping a library operation: either a thrown JS `Error` with
its message (`validatePath` rejections, `analyzeFolder`'s not-a-directory)
or a propagated filesystem error. -/
inductive OpError where
  | jsError (msg : String)
  | fsErr (e : FsErr)
  deriving Repr, DecidableEq

deriving instance DecidableEq for Except

/-- An operation's outcome together with the filesystem paths it handed to
`fs.promises` calls, in order. -/
def FsOut (α : Type) : Type := Except OpError α × List String

/-- Sequence two traced steps, concatenating their traces and stopping at
the first error. -/
def FsOut.bnd {α β : Type} (x : FsOut α) (f : α → FsOut β) : FsOut β :=
  match x with
  | (.error e, t) => (.error e, t)
  | (.ok a, t) => let r := f a; (r.1, t ++ r.2)

/-- Lift one filesystem primitive call on path `p` into a traced step. -/
def liftFs {α : Type} (r : Except FsErr α) (p : String) : FsOut α :=
  (r.mapError .fsErr, [p])

/-- `ALLOWED_BASE_PATH = path.resolve(process.cwd(), 'api-resources')`. -/
def allowedBasePath (cwd : String) : String := presolve cwd "api-resources"

/-- The message of the `Access denied` error thrown by `validatePath`. -/
def accessDeniedMsg (filePath : String) : String :=
  "Access denied: Files can only be read from the api-resources directory. Attempted path: " ++ filePath

/-- `validatePath` of the hardened library (`file-operations.ts` lines
7-36): resolve the argument; if the resolution leaves the jail and the
cwd-relative form does not start with `api-resources/`, retry with the
bare basename inside the jail; reject when the final candidate still lies
outside `ALLOWED_BASE_PATH` (string-prefix test, as in the source). -/
def validatePath (cwd filePath : String) : Except String String :=
  let allowed := allowedBasePath cwd
  let resolvedPath := presolve cwd filePath
  if !(jsStartsWith resolvedPath allowed) then
    let relativePath := prelative cwd resolvedPath
    if !(jsStartsWith relativePath "api-resources/") then
      let apiResourcePath := presolve allowed (pbasename filePath)
      if !(jsStartsWith apiResourcePath allowed) then
        .error (accessDeniedMsg filePath)
      else
        .ok apiResourcePath
    else
      if !(jsStartsWith resolvedPath allowed) then
        .error (accessDeniedMsg filePath)
      else
        .ok resolvedPath
  else
    if !(jsStartsWith resolvedPath allowed) then
      .error (accessDeniedMsg filePath)
    else
      .ok resolvedPath

/-- `readFileContent` (hardened): validate, confirm read access, read. -/
def readFileContent (fs : FsNode) (cwd filePath : String) : FsOut String :=
  match validatePath cwd filePath with
  | .error m => (.error (.jsError m), [])
  | .ok resolvedPath =>
    FsOut.bnd (liftFs (accessR fs resolvedPath) resolvedPath) fun _ =>
      liftFs (readFileFs fs resolvedPath) resolvedPath

/-- One entry of the hardened `listDirectory`'s result. -/
structure DirItem where
  name : String
  type : String
  path : String
  deriving Repr, DecidableEq

/-- `listDirectory` (hardened): validate (`dirPath || 'api-resources'`),
confirm access, read the directory, classify each entry. -/
def listDirectory (fs : FsNode) (cwd dirPath : String) : FsOut (List DirItem) :=
  match validatePath cwd (jsOr dirPath "api-resources") with
  | .error m => (.error (.jsError m), [])
  | .ok resolvedPath =>
    FsOut.bnd (liftFs (accessR fs resolvedPath) resolvedPath) fun _ =>
    FsOut.bnd (liftFs (readdirFs fs resolvedPath) resolvedPath) fun entries =>
      (.ok (entries.map fun e =>
        { name := e.1
          type := if e.2 then "directory" else "file"
          path := pjoin resolvedPath e.1 }), [])

/-- Recursive walk of the hardened `searchFiles` (`file-operations.ts`
lines 64-83), one step per directory entry: a subdirectory is entered
unless its name starts with `.` (an unreadable one contributes nothing but
its attempted `readdir`), a file is collected when its lower-cased name
contains the lower-cased pattern.  Returns the collected absolute paths
and the paths handed to `readdir`, in visit order. -/
def searchEntries (pattern : String) : FsEntries → String → List String × List String
  | .nil, _ => ([], [])
  | .cons name (.file _ _ _) rest, cur =>
    let entryPath := pjoin cur name
    let head : List String × List String :=
      if strIncludes (jsToLower name) (jsToLower pattern) then ([entryPath], [])
      else ([], [])
    let tail := searchEntries pattern rest cur
    (head.1 ++ tail.1, head.2 ++ tail.2)
  | .cons name (.dir rd ch) rest, cur =>
    let entryPath := pjoin cur name
    let head : List String × List String :=
      if !(jsStartsWith name ".") then
        if rd then
          let s := searchEntries pattern ch entryPath
          (s.1, entryPath :: s.2)
        else ([], [entryPath])
      else ([], [])
    let tail := searchEntries pattern rest cur
    (head.1 ++ tail.1, head.2 ++ tail.2)

/-- `searchFiles` (hardened, `file-operations.ts` lines 58-93): validate
the root (`rootPath || 'api-resources'`), walk it; a rejected or unreadable
root yields the empty result instead of an error. -/
def searchFiles (fs : FsNode) (cwd rootPath pattern : String) : List String × List String :=
  match validatePath cwd (jsOr rootPath "api-resources") with
  | .error _ => ([], [])
  | .ok resolvedRootPath =>
    match lookupNode fs resolvedRootPath with
    | none => ([], [resolvedRootPath])
    | some (.file _ _ _) => ([], [resolvedRootPath])
    | some (.dir rd ch) =>
      if rd then
        let s := searchEntries pattern ch resolvedRootPath
        (s.1, resolvedRootPath :: s.2)
      else ([], [resolvedRootPath])

/-- Recursive walk of the inline MCP-server `searchFiles` (the stdio tool
server's copy): identical to the hardened walk except that a directory
named `node_modules` is also skipped. -/
def mcpSearchEntries (pattern : String) : FsEntries → String → List String
  | .nil, _ => []
  | .cons name (.file _ _ _) rest, cur =>
    (if strIncludes (jsToLower name) (jsToLower pattern) then [pjoin cur name]
     else []) ++ mcpSearchEntries pattern rest cur
  | .cons name (.dir rd ch) rest, cur =>
    (if !(jsStartsWith name ".") && !(name == "node_modules") then
       if rd then mcpSearchEntries pattern ch (pjoin cur name) else []
     else []) ++ mcpSearchEntries pattern rest cur

/-- `searchFiles` of the inline MCP-server copy: resolve the root (no
jail), walk it; a missing or unreadable root yields the empty list. -/
def mcpSearchFiles (fs : FsNode) (cwd rootPath pattern : String) : List String :=
  let resolvedRoot := presolve cwd rootPath
  match lookupNode fs resolvedRoot with
  | none => []
  | some (.file _ _ _) => []
  | some (.dir rd ch) => if rd then mcpSearchEntries pattern ch resolvedRoot else []

/-- The aggregate produced by the hardened `analyzeFolder` (JS field
`structure` is `structureList` here, `structure` being a Lean keyword). -/
structure FolderAnalysis where
  path : String
  totalItems : Nat
  files : Nat
  directories : Nat
  fileTypes : List (String × Nat)
  structureList : List DirItem
  deriving Repr, DecidableEq

/-- Increment a key of a JS object used as a counter, preserving insertion
order (`analysis.fileTypes[ext] = (analysis.fileTypes[ext] || 0) + 1`). -/
def bumpKey : List (String × Nat) → String → List (String × Nat)
  | [], k => [(k, 1)]
  | (a, n) :: rest, k =>
    if a = k then (a, n + 1) :: rest else (a, n) :: bumpKey rest k

/-- `path.extname(item.name).toLowerCase() || 'no-extension'`. -/
def extKeyOf (name : String) : String :=
  jsOr (jsToLower (pextname name)) "no-extension"

/-- `analyzeFolder` (hardened): validate, confirm access, require a
directory, list the immediate children and aggregate them. -/
def analyzeFolder (fs : FsNode) (cwd folderPath : String) : FsOut FolderAnalysis :=
  match validatePath cwd (jsOr folderPath "api-resources") with
  | .error m => (.error (.jsError m), [])
  | .ok resolvedPath =>
    FsOut.bnd (liftFs (accessR fs resolvedPath) resolvedPath) fun _ =>
    FsOut.bnd (liftFs (statFs fs resolvedPath) resolvedPath) fun stats =>
    if !stats.isDir then
      (.error (.jsError (folderPath ++ " is not a directory")), [])
    else
      FsOut.bnd (listDirectory fs cwd resolvedPath) fun items =>
      (.ok { path := resolvedPath
             totalItems := items.length
             files := (items.filter (fun i => i.type == "file")).length
             directories := (items.filter (fun i => i.type == "directory")).length
             fileTypes := (items.filter (fun i => i.type == "file")).foldl
               (fun m i => bumpKey m (extKeyOf i.name)) []
             structureList := items }, [])

/-- `summarizeFile` (hardened).  `fmtDate` is the oracle for the
locale-dependent `new Date(stats.mtime.toISOString()).toLocaleDateString()`
chain. -/
def summarizeFile (fs : FsNode) (cwd : String) (fmtDate : String → String)
    (filePath : String) : FsOut String :=
  match validatePath cwd filePath with
  | .error m => (.error (.jsError m), [])
  | .ok resolvedPath =>
    FsOut.bnd (liftFs (accessR fs resolvedPath) resolvedPath) fun _ =>
    FsOut.bnd (liftFs (statFs fs resolvedPath) resolvedPath) fun stats =>
    FsOut.bnd (liftFs (readFileFs fs resolvedPath) resolvedPath) fun content =>
    let name := pbasename filePath
    let extension := jsToLower (pextname filePath)
    let header := "üìÑ **" ++ name ++ "**\n"
      ++ "- Size: " ++ toString stats.size ++ " bytes\n"
      ++ "- Type: " ++ jsOr extension "no extension" ++ "\n"
      ++ "- Modified: " ++ fmtDate stats.mtime ++ "\n\n"
    let out :=
      if jsLength content > 2000 then
        let lines := strSplit content '\n'
        let preview := String.intercalate "\n" (lines.take 10)
        header ++ "üìä **Content Overview:**\n"
          ++ "- Lines: " ++ toString lines.length ++ "\n"
          ++ "- Characters: " ++ toString (jsLength content) ++ "\n\n"
          ++ "üîç **Preview (first 10 lines):**\n```\n" ++ preview ++ "\n```\n"
          ++ (if lines.length > 10 then
                "\n‚ö†Ô∏è *File truncated - showing first 10 of "
                  ++ toString lines.length ++ " lines*"
              else "")
      else
        header ++ "üìù **Full Content:**\n```\n" ++ content ++ "\n```"
    (.ok out, [])

/-- The per-file summary block of `summarizeAllFiles` (`file-operations.ts`
lines 192-212): the metadata head plus full content, capped preview or
too-large note, where the cap is `min(500, remaining_budget - 200)` of the
8000-character budget given the running `currentLength`. -/
def sumFileBlock (file : DirItem) (stats : FsStat) (fileContent : String)
    (currentLength : Nat) : String :=
  let fileHead := "### üìÑ " ++ file.name ++ "\n"
    ++ "- Size: " ++ toString stats.size ++ " bytes\n"
    ++ "- Type: " ++ jsOr (pextname file.name) "no extension" ++ "\n"
  let remainingSpace : Int := 8000 - (currentLength : Int)
  let maxContentForThisFile : Int := min 500 (remainingSpace - 200)
  if 100 < maxContentForThisFile ∧ 0 < jsLength fileContent then
    if (jsLength fileContent : Int) ≤ maxContentForThisFile then
      fileHead ++ "- Content:\n```\n" ++ fileContent ++ "\n```\n\n"
    else
      let preview := jsSubstring fileContent maxContentForThisFile.toNat
      let lineCount := (strSplit fileContent '\n').length
      fileHead ++ "- Preview:\n```\n" ++ preview ++ "...\n```\n"
        ++ "- *Truncated (" ++ toString (jsLength fileContent) ++ " chars, "
        ++ toString lineCount ++ " lines total)*\n\n"
  else
    fileHead ++ "- *Content too large for summary*\n\n"

/-- The per-file loop of `summarizeAllFiles` (`file-operations.ts` lines
187-231).  `all` is the full file list (for `files.slice(files.indexOf
(file))`), `i` the current index.  Returns the grown summary together with
the final `currentLength`, and the traced read/stat paths. -/
def sumLoop (fs : FsNode) (all : List DirItem) :
    List DirItem → Nat → String → Nat → (String × Nat) × List String
  | [], _, summary, currentLength => ((summary, currentLength), [])
  | file :: rest, i, summary, currentLength =>
    match readFileFs fs file.path with
    | .error e =>
      let summary2 := summary ++ "### ‚ùå " ++ file.name
        ++ "\n- Error reading file: " ++ fsErrMessage e file.path ++ "\n\n"
      let r := sumLoop fs all rest (i + 1) summary2 currentLength
      (r.1, file.path :: r.2)
    | .ok fileContent =>
      match statFs fs file.path with
      | .error e =>
        let summary2 := summary ++ "### ‚ùå " ++ file.name
          ++ "\n- Error reading file: " ++ fsErrMessage e file.path ++ "\n\n"
        let r := sumLoop fs all rest (i + 1) summary2 currentLength
        (r.1, file.path :: file.path :: r.2)
      | .ok stats =>
        let fileSummary := sumFileBlock file stats fileContent currentLength
        if 8000 < currentLength + jsLength fileSummary then
          ((summary
            ++ "\n‚ö†Ô∏è *Remaining files truncated to stay within processing limits*\n"
            ++ "üìã *Remaining files: "
            ++ String.intercalate ", " ((all.drop i).map (fun f => f.name)) ++ "*",
            currentLength), [file.path, file.path])
        else
          let r := sumLoop fs all rest (i + 1) (summary ++ fileSummary)
            (currentLength + jsLength fileSummary)
          (r.1, file.path :: file.path :: r.2)

/-- `summarizeAllFiles` (hardened, `file-operations.ts` lines 172-234). -/
def summarizeAllFiles (fs : FsNode) (cwd dirPath : String) : FsOut String :=
  match validatePath cwd (jsOr dirPath "api-resources") with
  | .error m => (.error (.jsError m), [])
  | .ok resolvedPath =>
    FsOut.bnd (listDirectory fs cwd resolvedPath) fun items =>
    let files := items.filter (fun i => i.type == "file")
    if files.length = 0 then
      (.ok ("No files found in " ++ resolvedPath), [])
    else
      let header := "üìÅ **Files Summary for "
        ++ pbasename resolvedPath ++ "**\n\n"
        ++ "üìä Found " ++ toString files.length ++ " files\n\n"
      let r := sumLoop fs files files 0 header (jsLength header)
      (.ok r.1.1, r.2)

/-- The per-file loop of the all-files branch of `analyzeFileSubjects`
(first five files, per-file failures rendered inline). -/
def subjLoop (fs : FsNode) : List DirItem → String → String × List String
  | [], acc => (acc, [])
  | file :: rest, acc =>
    match readFileFs fs file.path with
    | .error _ =>
      let r := subjLoop fs rest
        (acc ++ "### ‚ùå " ++ file.name ++ " - Could not analyze\n\n")
      (r.1, file.path :: r.2)
    | .ok content =>
      let preview := jsSubstring
        (String.intercalate "\n" ((strSplit content '\n').take 5)) 200
      let block := "### üìÑ " ++ file.name ++ "\n"
        ++ "**Preview for subject analysis:**\n"
        ++ "```\n" ++ preview
        ++ (if jsLength content > 200 then "..." else "") ++ "\n```\n\n"
      let r := subjLoop fs rest (acc ++ block)
      (r.1, file.path :: r.2)

/-- `analyzeFileSubjects` (hardened).  The optional `options` record is
passed as `optSingle`/`optFile` (`""` for an absent, falsy `file`). -/
def analyzeFileSubjects (fs : FsNode) (cwd dirPath : String)
    (optSingle : Bool) (optFile : String) : FsOut String :=
  match validatePath cwd (jsOr dirPath "api-resources") with
  | .error m => (.error (.jsError m), [])
  | .ok resolvedPath =>
    if optSingle ∧ optFile ≠ "" then
      match validatePath cwd optFile with
      | .error m =>
        (.ok ("‚ùå Error analyzing file subject: " ++ m), [])
      | .ok filePath =>
        match readFileFs fs filePath with
        | .error e =>
          (.ok ("‚ùå Error analyzing file subject: "
            ++ fsErrMessage e filePath), [filePath])
        | .ok content =>
          match statFs fs filePath with
          | .error e =>
            (.ok ("‚ùå Error analyzing file subject: "
              ++ fsErrMessage e filePath), [filePath, filePath])
          | .ok stats =>
            let firstLines := String.intercalate "\n" ((strSplit content '\n').take 20)
            let fileType := jsToLower (pextname optFile)
            let analysis := "üéØ **Subject Analysis: "
              ++ pbasename optFile ++ "**\n\n"
              ++ "üìÑ **File Type:** "
              ++ jsOr fileType "no extension" ++ "\n"
              ++ "üìä **Size:** " ++ toString stats.size
              ++ " bytes (" ++ toString (strSplit content '\n').length ++ " lines)\n\n"
              ++ "üîç **Content for Subject Analysis:**\n"
              ++ "```\n" ++ jsSubstring firstLines 1500 ++ "```\n\n"
              ++ (if jsLength content > 1500 then
                    "‚ö†Ô∏è *Showing first 1500 characters of "
                      ++ toString (jsLength content) ++ " total for subject analysis*\n"
                  else "")
            (.ok analysis, [filePath, filePath])
    else
      FsOut.bnd (listDirectory fs cwd resolvedPath) fun items =>
      let files := items.filter (fun i => i.type == "file")
      if files.length = 0 then
        (.ok ("No files found in " ++ resolvedPath ++ " for subject analysis"), [])
      else
        let header := "üéØ **Subject Analysis Summary**\n\n"
          ++ "üìä Analyzing " ++ toString files.length
          ++ " files for subjects/topics\n\n"
        let r := subjLoop fs (files.take 5) header
        (.ok (r.1
          ++ (if files.length > 5 then
                "\nüìã *" ++ toString (files.length - 5)
                  ++ " additional files not shown to keep analysis focused*"
              else "")), r.2)

/-- Payload-free model of a parsed JSON value: `extractKeyInformation`
consumes only `typeof`, `Object.keys` and member kinds. -/
inductive JsVal where
  | null | undefined | boolean | number | str
  | arr (elems : List JsVal)
  | obj (fields : List (String × JsVal))
  deriving Repr

/-- JS `typeof`. -/
def jsTypeof : JsVal → String
  | .null => "object"
  | .undefined => "undefined"
  | .boolean => "boolean"
  | .number => "number"
  | .str => "string"
  | .arr _ => "object"
  | .obj _ => "object"

/-- Whether the value is JS `null`. -/
def JsVal.isNull : JsVal → Bool
  | .null => true
  | _ => false

/-- JS `Object.keys`. -/
def jsKeys : JsVal → List String
  | .obj fields => fields.map (fun f => f.1)
  | .arr elems => (List.range elems.length).map toString
  | _ => []

/-- JS member access `v[key]` for the keys produced by `jsKeys`. -/
def jsGet : JsVal → String → JsVal
  | .obj fields, k =>
    match fields.lookup k with
    | some v => v
    | none => .undefined
  | .arr elems, k =>
    match k.toNat? with
    | some i => (elems.get? i).getD .undefined
    | none => .undefined
  | _, _ => .undefined

/-- The per-file analysis block of `extractKeyInformation`
(`file-operations.ts` lines 341-408).  `jsonParse` is the oracle for
`JSON.parse` (`none` models a parse exception). -/
def keyInfoBlock (jsonParse : String → Option JsVal) (file : DirItem)
    (content : String) (stats : FsStat) : String :=
  let fileType := jsToLower (pextname file.name)
  let body :=
    if fileType == ".json" then
      match jsonParse content with
      | none => "**Type:** JSON (invalid format)\n"
      | some jsonData =>
        "**Type:** JSON Configuration\n" ++ "**Key Data Structure:**\n"
        ++ (if jsTypeof jsonData == "object" && !jsonData.isNull then
              let keys := (jsKeys jsonData).take 8
              String.intercalate "\n"
                (keys.map (fun key => "- " ++ key ++ ": " ++ jsTypeof (jsGet jsonData key)))
              ++ (if (jsKeys jsonData).length > 8 then
                    "\n- ...and " ++ toString ((jsKeys jsonData).length - 8) ++ " more keys"
                  else "")
            else "")
    else if fileType == ".pdf" then
      "**Type:** PDF Document\n"
      ++ "**Size:** " ++ toString stats.size ++ " bytes\n"
      ++ "**Key Indicators:** Likely contains structured document content\n"
      ++ "**Content Preview:** `"
      ++ jsSubstring (String.intercalate "\n" ((strSplit content '\n').take 3)) 150
      ++ "...`\n"
    else
      let lines := strSplit content '\n'
      let importantLines := (lines.filter (fun line =>
        strIncludes (jsToLower line) "name" || strIncludes (jsToLower line) "title" ||
        strIncludes (jsToLower line) "subject" || strIncludes (jsToLower line) "description" ||
        strIncludes (jsToLower line) "summary" ||
        strIncludes line ":" || strIncludes line "=")).take 5
      "**Type:** Text-based (" ++ jsOr fileType "no extension" ++ ")\n"
      ++ "**Lines:** " ++ toString lines.length ++ "\n"
      ++ (if importantLines.length > 0 then
            "**Key Lines:**\n"
              ++ String.join (importantLines.map (fun line =>
                   "- `" ++ jsSubstring (jsTrim line) 80 ++ "`\n"))
          else
            "**Content Preview:** `" ++ jsSubstring content 200 ++ "...`\n")
  "### üéØ " ++ file.name ++ "\n" ++ body ++ "\n"

/-- The per-file loop of `extractKeyInformation` (6000-character budget,
per-file failures rendered inline without advancing the budget). -/
def keyLoop (jsonParse : String → Option JsVal) (fs : FsNode) :
    List DirItem → String → Nat → String × List String
  | [], acc, _ => (acc, [])
  | file :: rest, acc, currentLength =>
    match readFileFs fs file.path with
    | .error _ =>
      let r := keyLoop jsonParse fs rest
        (acc ++ "### ‚ùå " ++ file.name ++ " - Analysis error\n\n")
        currentLength
      (r.1, file.path :: r.2)
    | .ok content =>
      match statFs fs file.path with
      | .error _ =>
        let r := keyLoop jsonParse fs rest
          (acc ++ "### ‚ùå " ++ file.name ++ " - Analysis error\n\n")
          currentLength
        (r.1, file.path :: file.path :: r.2)
      | .ok stats =>
        let fileAnalysis := keyInfoBlock jsonParse file content stats
        if 6000 < currentLength + jsLength fileAnalysis then
          ((acc ++ "\n‚ö†Ô∏è *Analysis truncated - remaining files contain additional data*\n"),
           [file.path, file.path])
        else
          let r := keyLoop jsonParse fs rest (acc ++ fileAnalysis)
            (currentLength + jsLength fileAnalysis)
          (r.1, file.path :: file.path :: r.2)

/-- `extractKeyInformation` (hardened, `file-operations.ts` lines
320-426). -/
def extractKeyInformation (jsonParse : String → Option JsVal) (fs : FsNode)
    (cwd dirPath : String) : FsOut String :=
  match validatePath cwd (jsOr dirPath "api-resources") with
  | .error m => (.error (.jsError m), [])
  | .ok resolvedPath =>
    FsOut.bnd (listDirectory fs cwd resolvedPath) fun items =>
    let files := items.filter (fun i => i.type == "file")
    if files.length = 0 then
      (.ok ("No files found in " ++ resolvedPath ++ " for key information extraction"), [])
    else
      let header := "üîë **Key Information Extraction**\n\n"
        ++ "üìä Analyzing " ++ toString files.length
        ++ " files to identify important data\n\n"
      let r := keyLoop jsonParse fs files header (jsLength header)
      (.ok (r.1
        ++ "\nüí° **Summary:** This analysis focuses on extracting the most relevant data patterns and key information from your files for efficient LLM processing."),
       r.2)

/-! ## Serverless adapter (`api/index.js`): CORS middleware and
truncation repair -/

/-- The adapter's origin allow-list (development vs production). -/
def allowedOrigins (isDevelopment : Bool) : List String :=
  if isDevelopment then
    ["http://localhost:3000", "http://localhost:3500", "http://localhost:8080",
     "https://localhost:3000", "https://localhost:3500"]
  else
    ["https://yonatan-ayalon.com", "https://www.yonatan-ayalon.com"]

/-- The slice of an HTTP request the CORS middleware inspects. -/
structure HttpReq where
  method : String
  path : String
  origin : Option String

/-- Outcome of the middleware: either a finished response or fall-through
to the later handlers with some headers already set. -/
inductive CorsStep where
  | respond (status : Nat) (headers : List (String × String))
  | next (headers : List (String × String))

/-- The three fixed CORS headers the middleware always sets alongside the
origin echo. -/
def corsHeadersTail : List (String × String) :=
  [("Access-Control-Allow-Credentials", "true"),
   ("Access-Control-Allow-Methods", "GET, POST, OPTIONS"),
   ("Access-Control-Allow-Headers", "Content-Type, Authorization, x-api-key, anthropic-version")]

/-- The manual CORS middleware of `api/index.js` (lines 167-219),
registered before every route: an `OPTIONS` request is answered
immediately with status 200 (echoing any present `Origin`, allowed or not
— the source's explicit debug fallback); other requests only get CORS
headers for an allow-listed origin and fall through. -/
def corsMiddleware (isDevelopment : Bool) (req : HttpReq) : CorsStep :=
  let allowed := allowedOrigins isDevelopment
  if req.method == "OPTIONS" then
    let originHeader :=
      match req.origin with
      | some origin =>
        if allowed.contains origin then [("Access-Control-Allow-Origin", origin)]
        else [("Access-Control-Allow-Origin", origin)]
      | none => []
    .respond 200 (originHeader ++ corsHeadersTail)
  else
    match req.origin with
    | some origin =>
      if allowed.contains origin then
        .next ([("Access-Control-Allow-Origin", origin)] ++ corsHeadersTail)
      else .next []
    | none => .next []

/-- The adapter app: the CORS middleware runs first (`app.use`, line 167);
on fall-through an arbitrary downstream route handler (parameter) produces
the response. -/
def handleRequest (isDevelopment : Bool)
    (routes : HttpReq → List (String × String) → Nat × List (String × String))
    (req : HttpReq) : Nat × List (String × String) :=
  match corsMiddleware isDevelopment req with
  | .respond status headers => (status, headers)
  | .next headers =>
    let r := routes req headers
    (r.1, headers ++ r.2)

/-- The `cors` npm package's preflight handling under its documented
default options (`origin: '*'`, `methods: 'GET,HEAD,PUT,PATCH,POST,DELETE'`,
`preflightContinue: false`, `optionsSuccessStatus: 204`), as registered
with no arguments by the inline MCP server's `createExpressApp`
(`app.use(cors())`): an `OPTIONS` request is ended with status 204,
`Access-Control-Allow-Origin: *` and the default method list; other
requests get the origin header and fall through.  The package ships from
`node_modules` rather than this repository's sources, so this definition
is modelled from its documented defaults. -/
def corsDefaultMiddleware (req : HttpReq) : CorsStep :=
  if req.method == "OPTIONS" then
    .respond 204
      [("Access-Control-Allow-Origin", "*"),
       ("Access-Control-Allow-Methods", "GET,HEAD,PUT,PATCH,POST,DELETE"),
       ("Content-Length", "0")]
  else
    .next [("Access-Control-Allow-Origin", "*")]

/-- The inline MCP server's Express app (`createExpressApp`): `cors()`
with default options runs first, then arbitrary downstream route handlers
(parameter). -/
def expressHandleRequest
    (routes : HttpReq → List (String × String) → Nat × List (String × String))
    (req : HttpReq) : Nat × List (String × String) :=
  match corsDefaultMiddleware req with
  | .respond status headers => (status, headers)
  | .next headers =>
    let r := routes req headers
    (r.1, headers ++ r.2)

/-- ASCII letter test (`[a-zA-Z]`). -/
def isAsciiLetter (c : Char) : Bool :=
  ('a' ≤ c && c ≤ 'z') || ('A' ≤ c && c ≤ 'Z')

/-- JS regex word character (`\w`, for the `\b` boundary). -/
def isWordChar (c : Char) : Bool :=
  isAsciiLetter c || ('0' ≤ c && c ≤ '9') || c = '_'

/-- Last character before optional trailing whitespace. -/
def lastNonWS (s : String) : Option Char :=
  (s.data.reverse.dropWhile jsWS).head?

/-- `/[a-zA-Z]\s*$/.test(s)`. -/
def endsLetterWS (s : String) : Bool :=
  match lastNonWS s with
  | some c => isAsciiLetter c
  | none => false

/-- `/[-–—]\s*$/.test(s)` (hyphen, en dash, em dash). -/
def endsDashWS (s : String) : Bool :=
  match lastNonWS s with
  | some c => c = '-' || c.toNat = 0x2013 || c.toNat = 0x2014
  | none => false

/-- `/[,:;]\s*$/.test(s)`. -/
def endsCommaWS (s : String) : Bool :=
  match lastNonWS s with
  | some c => c = ',' || c = ':' || c = ';'
  | none => false

/-- `/\b[A-Za-z]$/.test(s)`: last character is a letter preceded by a word
boundary. -/
def endsBoundaryLetter (s : String) : Bool :=
  match s.data.reverse with
  | [] => false
  | c :: rest =>
    isAsciiLetter c &&
      (match rest with
       | [] => true
       | d :: _ => !isWordChar d)

/-- `s.match(/[.!?]$/)` as a Bool. -/
def endsSentencePunct (s : String) : Bool :=
  match s.data.reverse with
  | [] => false
  | c :: _ => c = '.' || c = '!' || c = '?'

/-- The `seemsTruncated` detector of the adapter's chat handler
(`api/index.js` lines 634-646). -/
def seemsTruncated (aiResponse : String) : Bool :=
  jsLength aiResponse > 30 &&
    (endsLetterWS aiResponse ||
     endsDashWS aiResponse ||
     endsCommaWS aiResponse ||
     endsBoundaryLetter aiResponse ||
     (!endsSentencePunct aiResponse && !strIncludes aiResponse "More details?"))

/-- The fixed repair text appended to a response detected as truncated
(`api/index.js` lines 652-664), starting with the ellipsis; the blue
diamond emoji is the one astral character in the repository's literals. -/
def repairTail : String :=
  "...\n\n" ++ String.singleton (Char.ofNat 0x1F539)
  ++ " **Response was incomplete!** Let me provide you with a complete assessment. \n\n"
  ++ "**For the Underdog Frontend Engineer position, Yonatan is an excellent fit because:**\n\n"
  ++ "• **React/TypeScript Expert**: 6+ years building scalable applications with React and TypeScript\n"
  ++ "• **Fantasy Sports Domain**: Experience with real-time scoring systems, user engagement features, and sports data integration  \n"
  ++ "• **High-Traffic Systems**: Built platforms handling 100K+ daily users and millions of events\n"
  ++ "• **Performance Focus**: Achieved 90+ Lighthouse scores, optimized for sub-100ms latency requirements\n"
  ++ "• **Team Leadership**: Led technical teams and mentored developers at fast-growing companies\n\n"
  ++ "**Would you like me to elaborate on:** his specific fantasy sports projects | technical architecture experience | scaling achievements | leadership experience?"

/-- The truncation-repair step of `handleChatRequest` (`api/index.js`
lines 648-665): when `seemsTruncated`, trailing whitespace is removed and
the fixed tail appended; otherwise the text passes through unchanged.
Returns the text together with the reported `truncated` flag. -/
def applyTruncationRepair (aiResponse : String) : String × Bool :=
  if seemsTruncated aiResponse then
    (rtrimWS aiResponse ++ repairTail, true)
  else
    (aiResponse, false)

/-- The cut-off condition exactly as the specification's sentence words it
(for comparison with the source's `seemsTruncated`): the text ends in a
bare letter, a dash, a comma/colon/semicolon, or lacks terminal sentence
punctuation while not containing the phrase `More details?`.  The
specification states no minimum length. -/
def specCutOffCond (s : String) : Bool :=
  endsLetterWS s || endsDashWS s || endsCommaWS s ||
    (!endsSentencePunct s && !strIncludes s "More details?")

/-! ## Claude CLI chat client (`src/chat-interface.ts`), `chat` method -/

/-- One conversation turn. -/
structure ChatTurn where
  role : String
  content : String
  deriving Repr, DecidableEq

/-- A detected function call: its name and (for the embedding) the
already-rendered argument payload; `chat` treats the arguments opaquely. -/
structure FnCall where
  name : String
  argsRendered : String
  deriving Repr

/-- Execute the detected calls in order through the `executeFunction`
oracle, concatenating the per-call `\n<name>: <result>\n` blocks; the
first thrown error aborts (`chat` lines 736-753). -/
def runCalls (execute : FnCall → Except String String) :
    List FnCall → Except String String
  | [] => .ok ""
  | call :: rest =>
    match execute call with
    | .error e => .error e
    | .ok result =>
      match runCalls execute rest with
      | .error e => .error e
      | .ok t => .ok ("\n" ++ call.name ++ ": " ++ result ++ "\n" ++ t)

/-- The catch block of `chat` (lines 814-841): prefix the thrown message
with `Error: ` and append hints keyed on the message's contents. -/
def chatCatch (msg : String) : String :=
  let errorMsg := "Error: " ++ msg
  let errorMsg := errorMsg ++
    (if strIncludes msg "fetch failed" then
      "\n\n" ++ String.singleton (Char.ofNat 0x1F4A1) ++ " This might be due to:"
      ++ "\n   • Corporate firewall blocking api.anthropic.com"
      ++ "\n   • Network connectivity issues"
      ++ "\n   • Invalid API key"
      ++ "\n\n" ++ String.singleton (Char.ofNat 0x1F527)
      ++ " Try: Check your network connection and ANTHROPIC_API_KEY in .env.local file"
    else "")
  let errorMsg := errorMsg ++
    (if strIncludes msg "401" then
      "\n\n" ++ String.singleton (Char.ofNat 0x1F511)
      ++ " Invalid API key. Please check your ANTHROPIC_API_KEY in .env.local file."
    else "")
  let errorMsg := errorMsg ++
    (if strIncludes msg "429" then
      "\n\n⏱️  Rate limit exceeded. Please wait a moment before trying again."
    else "")
  errorMsg

/-- `FileContextChat.chat` (`chat-interface.ts` lines 726-842) as a
transition on the in-memory conversation.  `calls` is the (pure) result of
`detectFunctionCalls`; `execute` is the `executeFunction` oracle;
`respond` is the oracle for the content-producing step (mock generation or
the Claude API call) applied to the assembled context message.  On success
the original message and the response are pushed as two turns; a caught
error leaves the conversation untouched and returns the hint-annotated
error string. -/
def chatModel (conv : List ChatTurn) (message : String) (calls : List FnCall)
    (execute : FnCall → Except String String)
    (respond : String → Except String String) : List ChatTurn × String :=
  match runCalls execute calls with
  | .error e => (conv, chatCatch e)
  | .ok blocks =>
    let contextMessage :=
      if calls.length > 0 then message ++ "\n\nFile system results:\n" ++ blocks
      else message
    match respond contextMessage with
    | .error e => (conv, chatCatch e)
    | .ok content =>
      (conv ++ [⟨"user", message⟩, ⟨"assistant", content⟩], content)

/-! ## Concrete fixtures -/

/-- Build an `FsEntries` spine from a list. -/
def entriesOf : List (String × FsNode) → FsEntries
  | [] => .nil
  | (n, v) :: r => .cons n v (entriesOf r)

/-- A fixed modification timestamp for fixture files. -/
def mtime0 : String := "2024-01-01T00:00:00.000Z"

/-- The working directory used by all fixtures. -/
def cwd0 : String := "/app"

/-- A filesystem mirroring the deployed layout: the document corpus under
`/app/api-resources`, a `package.json` in the working directory and an
`/etc/passwd` outside it. -/
def fs0 : FsNode :=
  .dir true (entriesOf
    [("app", .dir true (entriesOf
        [("api-resources", .dir true (entriesOf
            [("yonatan-ayalon-resume.pdf", .file "%PDF-1.4 resume data" true mtime0),
             ("profile.md", .file "# Profile\nYonatan Ayalon, frontend engineer." true mtime0),
             ("projects.md", .file "# Projects\nDesign systems and testing." true mtime0)])),
         ("package.json", .file "local package manifest" true mtime0)])),
     ("etc", .dir true (entriesOf
        [("passwd", .file "root:x:0:0:root:/root:/bin/bash" true mtime0)]))])

/-- A corpus containing a `node_modules` directory, a hidden directory and
a visible file, to probe `searchFiles`' descent policy. -/
def fs3 : FsNode :=
  .dir true (entriesOf
    [("app", .dir true (entriesOf
        [("api-resources", .dir true (entriesOf
            [("node_modules", .dir true (entriesOf
                [("evil.txt", .file "dependency payload" true mtime0)])),
             (".hidden", .dir true (entriesOf
                [("secret.txt", .file "hidden payload" true mtime0)])),
             ("visible.txt", .file "plain payload" true mtime0)]))]))])

/-- A corpus with an empty directory, a two-file-plus-subdirectory
directory (the subdirectory itself non-empty, so that recursive contents
would be visible if they were counted) and a mixed-extension directory. -/
def fs9 : FsNode :=
  .dir true (entriesOf
    [("app", .dir true (entriesOf
        [("api-resources", .dir true (entriesOf
            [("empty", .dir true (entriesOf [])),
             ("docs", .dir true (entriesOf
                [("report.pdf", .file "%PDF-1.4 report" true mtime0),
                 ("data.json", .file "42" true mtime0),
                 ("sub", .dir true (entriesOf
                    [("inner.pdf", .file "%PDF-1.4 inner" true mtime0)]))])),
             ("mixed", .dir true (entriesOf
                [("README", .file "plain notes" true mtime0),
                 ("A.PDF", .file "%PDF-1.4 upper" true mtime0)]))]))]))])

/-- A directory whose very long name consumes more than the whole 8000
character budget of `summarizeAllFiles`. -/
def longDirName : String := String.mk (List.replicate 8100 'a')

/-- Corpus for the `summarizeAllFiles` budget analysis, parametric in the
name of the summarized directory: it holds three tiny files. -/
def fs6p (nm : String) : FsNode :=
  .dir true (entriesOf
    [("app", .dir true (entriesOf
        [("api-resources", .dir true (entriesOf
            [(nm, .dir true (entriesOf
                [("f1.txt", .file "x" true mtime0),
                 ("f2.txt", .file "x" true mtime0),
                 ("f3.txt", .file "x" true mtime0)]))]))]))])

/-- The budget fixture with the 8100-character directory name. -/
def fs6 : FsNode := fs6p longDirName

/-- The absolute directory path handed to `summarizeAllFiles` in the
budget analysis. -/
def dirPath6 : String := "/app/api-resources/" ++ longDirName

/-- The header `summarizeAllFiles` emits for the budget fixture. -/
def header6 : String :=
  "üìÅ **Files Summary for " ++ longDirName ++ "**\n\n"
  ++ "üìä Found 3 files\n\n"

/-- The truncation notice of `summarizeAllFiles`. -/
def notice6 : String :=
  "\n‚ö†Ô∏è *Remaining files truncated to stay within processing limits*\n"

/-- The remaining-file listing emitted for the budget fixture. -/
def names6 : String := "üìã *Remaining files: f1.txt, f2.txt, f3.txt*"

/-- Corpus for the full-inclusion side of the per-file content cap: one
300-character file under `api-resources/caps`, small enough to be included
in full. -/
def fs6b : FsNode :=
  .dir true (entriesOf
    [("app", .dir true (entriesOf
        [("api-resources", .dir true (entriesOf
            [("caps", .dir true (entriesOf
                [("big.txt", .file (String.mk (List.replicate 300 'b')) true mtime0)]))]))]))])

/-- Unwrap a successful string result (`""` for errors). -/
def extractOk : Except OpError String → String
  | .ok s => s
  | .error _ => ""

/-! ## Supporting lemmas -/

theorem strEq_of_data {s t : String} (h : s.data = t.data) : s = t := by
  cases s; cases t; exact congrArg String.mk h

theorem dataAppend (s t : String) : (s ++ t).data = s.data ++ t.data := by
  cases s; cases t; rfl

theorem isPrefixCh_append_right : ∀ l r : List Char, isPrefixCh l (l ++ r) = true
  | [], _ => rfl
  | a :: as, r => by simp [isPrefixCh, isPrefixCh_append_right as r]

theorem isPrefixCh_extend : ∀ {p l : List Char}, isPrefixCh p l = true →
    ∀ r, isPrefixCh p (l ++ r) = true := by
  intro p
  induction p with
  | nil => intro l _ r; rfl
  | cons a as ih =>
    intro l h r
    cases l with
    | nil => simp [isPrefixCh] at h
    | cons b bs =>
      simp only [isPrefixCh, Bool.and_eq_true, decide_eq_true_eq] at h ⊢
      exact ⟨h.1, ih h.2 r⟩

theorem isPrefixCh_trans : ∀ {a b c : List Char}, isPrefixCh a b = true →
    isPrefixCh b c = true → isPrefixCh a c = true := by
  intro a
  induction a with
  | nil => intro b c _ _; rfl
  | cons x xs ih =>
    intro b c hab hbc
    cases b with
    | nil => simp [isPrefixCh] at hab
    | cons y ys =>
      cases c with
      | nil => simp [isPrefixCh] at hbc
      | cons z zs =>
        simp only [isPrefixCh, Bool.and_eq_true, decide_eq_true_eq] at hab hbc ⊢
        exact ⟨hab.1.trans hbc.1, ih hab.2 hbc.2⟩

theorem jsStartsWith_refl (s : String) : jsStartsWith s s = true := by
  simpa [jsStartsWith] using isPrefixCh_append_right s.data []

theorem jsStartsWith_trans {a b c : String} (h1 : jsStartsWith b a = true)
    (h2 : jsStartsWith c b = true) : jsStartsWith c a = true :=
  isPrefixCh_trans h1 h2

theorem jsStartsWith_append (s t : String) (p : String)
    (h : jsStartsWith s p = true) : jsStartsWith (s ++ t) p = true := by
  simpa [jsStartsWith, dataAppend] using isPrefixCh_extend h t.data

theorem jsStartsWith_pjoin (a b pre : String) (h : jsStartsWith a pre = true) :
    jsStartsWith (pjoin a b) pre = true := by
  unfold pjoin
  by_cases he : jsEndsWith a "/" = true
  · simp only [he, if_true]
    exact jsStartsWith_append a b pre h
  · simp only [Bool.not_eq_true] at he
    simp only [he, Bool.false_eq_true, if_false]
    exact jsStartsWith_append (a ++ "/") b pre (jsStartsWith_append a "/" pre h)

/-- For validated-path reasoning: a successful `validatePath` returns one
of the two candidate resolutions, and both carry the jail prefix. -/
theorem validatePath_ok_cases {cwd p r : String}
    (h : validatePath cwd p = .ok r) :
    jsStartsWith r (allowedBasePath cwd) = true ∧
      (r = presolve cwd p ∨ r = presolve (allowedBasePath cwd) (pbasename p)) := by
  unfold validatePath at h
  by_cases h1 : jsStartsWith (presolve cwd p) (allowedBasePath cwd) = true
  · simp only [h1, Bool.not_true, if_neg, Bool.false_eq_true, if_false] at h
    · cases h
      exact ⟨h1, Or.inl rfl⟩
  · simp only [Bool.not_eq_true] at h1
    simp only [h1, Bool.not_false, if_true] at h
    by_cases h2 : jsStartsWith (prelative cwd (presolve cwd p)) "api-resources/" = true
    · simp only [h2, Bool.not_true, Bool.false_eq_true, if_false, h1, Bool.not_false, if_true] at h
      cases h
    · simp only [Bool.not_eq_true] at h2
      simp only [h2, Bool.not_false, if_true] at h
      by_cases h3 : jsStartsWith (presolve (allowedBasePath cwd) (pbasename p)) (allowedBasePath cwd) = true
      · simp only [h3, Bool.not_true, Bool.false_eq_true, if_false] at h
        cases h
        exact ⟨h3, Or.inr rfl⟩
      · simp only [Bool.not_eq_true] at h3
        simp only [h3, Bool.not_false, if_true] at h
        cases h

theorem jsStartsWith_append_left (p t : String) : jsStartsWith (p ++ t) p = true := by
  simpa [jsStartsWith, dataAppend] using isPrefixCh_append_right p.data t.data

theorem letter_not_ws {c : Char} (h : isAsciiLetter c = true) : jsWS c = false := by
  have hb : (97 ≤ c.toNat ∧ c.toNat ≤ 122) ∨ (65 ≤ c.toNat ∧ c.toNat ≤ 90) := by
    have h' : ('a' ≤ c ∧ c ≤ 'z') ∨ ('A' ≤ c ∧ c ≤ 'Z') := by
      simpa [isAsciiLetter, Bool.or_eq_true, Bool.and_eq_true, decide_eq_true_eq] using h
    exact h'
  have e1 : (c = ' ') = False :=
    eq_false fun hc => by cases hb <;> (have hcn := congrArg Char.toNat hc; simp_all)
  have e2 : (c = '\t') = False :=
    eq_false fun hc => by cases hb <;> (have hcn := congrArg Char.toNat hc; simp_all)
  have e3 : (c = '\n') = False :=
    eq_false fun hc => by cases hb <;> (have hcn := congrArg Char.toNat hc; simp_all)
  have e4 : (c = '\r') = False :=
    eq_false fun hc => by cases hb <;> (have hcn := congrArg Char.toNat hc; simp_all)
  have e5 : (c = '\x0b') = False :=
    eq_false fun hc => by cases hb <;> (have hcn := congrArg Char.toNat hc; simp_all)
  have e6 : (c = '\x0c') = False :=
    eq_false fun hc => by cases hb <;> (have hcn := congrArg Char.toNat hc; simp_all)
  have e7 : (c.toNat = 0xA0) = False := eq_false fun hc => by omega
  have e8 : (c.toNat = 0xFEFF) = False := eq_false fun hc => by omega
  simp [jsWS, e1, e2, e3, e4, e5, e6, e7, e8]

theorem boundary_letter_implies {s : String} (h : endsBoundaryLetter s = true) :
    endsLetterWS s = true := by
  unfold endsBoundaryLetter at h
  unfold endsLetterWS lastNonWS
  cases hr : s.data.reverse with
  | nil => rw [hr] at h; exact absurd h (by simp)
  | cons c rest =>
    rw [hr] at h
    simp only [Bool.and_eq_true] at h
    rw [List.dropWhile_cons, letter_not_ws h.1]
    simpa using h.1

/-! ## Claim theorems -/

/-- C1 (counterexample): in the hardened library, `readFileContent` on the
out-of-jail paths `/etc/passwd` and `package.json` does NOT fail with the
`Access denied` error the claim asserts: `validatePath` silently rewrites
both to `api-resources/<basename>`, and the calls fail with `ENOENT`
because no such files exist in the jail (even though the originals exist
in the fixture filesystem). -/
theorem c1_accessDenied_counterexample :
    (readFileContent fs0 cwd0 "/etc/passwd").1 = .error (.fsErr .enoent) ∧
    (readFileContent fs0 cwd0 "/etc/passwd").1 ≠
      .error (.jsError (accessDeniedMsg "/etc/passwd")) ∧
    (readFileContent fs0 cwd0 "package.json").1 = .error (.fsErr .enoent) ∧
    (readFileContent fs0 cwd0 "package.json").1 ≠
      .error (.jsError (accessDeniedMsg "package.json")) := by
  refine ⟨by decide, by decide, by decide, by decide⟩

/-- C1 (amended): `readFileContent("/etc/passwd")` and
`readFileContent("package.json")` both fail — but with a NotFound
(`ENOENT`) error after the path is rewritten to
`ALLOWED_BASE_PATH/<basename>`, not with AccessDenied — while
`readFileContent` on an existing file under `api-resources` succeeds and
returns its content. -/
theorem c1_readFileContent_behaviour :
    validatePath cwd0 "/etc/passwd" = .ok "/app/api-resources/passwd" ∧
    (readFileContent fs0 cwd0 "/etc/passwd").1 = .error (.fsErr .enoent) ∧
    validatePath cwd0 "package.json" = .ok "/app/api-resources/package.json" ∧
    (readFileContent fs0 cwd0 "package.json").1 = .error (.fsErr .enoent) ∧
    (readFileContent fs0 cwd0 "api-resources/profile.md").1 =
      .ok "# Profile\nYonatan Ayalon, frontend engineer." := by
  refine ⟨by decide, by decide, by decide, by decide, by decide⟩

theorem listDirectory_ok_shape {fs : FsNode} {cwd d : String} {items : List DirItem}
    (h : (listDirectory fs cwd d).1 = .ok items) :
    ∃ resolved es, validatePath cwd (jsOr d "api-resources") = .ok resolved ∧
      readdirFs fs resolved = .ok es ∧
      items = es.map (fun e =>
        { name := e.1
          type := if e.2 then "directory" else "file"
          path := pjoin resolved e.1 : DirItem }) := by
  unfold listDirectory at h
  cases hv : validatePath cwd (jsOr d "api-resources") with
  | error m => rw [hv] at h; simp at h
  | ok resolved =>
    rw [hv] at h
    cases ha : accessR fs resolved with
    | error e => simp [FsOut.bnd, liftFs, ha, Except.mapError] at h
    | ok u =>
      cases hr : readdirFs fs resolved with
      | error e => simp [FsOut.bnd, liftFs, ha, hr, Except.mapError] at h
      | ok es =>
        simp only [FsOut.bnd, liftFs, ha, hr, Except.mapError] at h
        refine ⟨resolved, es, rfl, hr, ?_⟩
        simpa using h.symm

theorem countFileDir (resolved : String) : ∀ es : List (String × Bool),
    (((es.map (fun e =>
        { name := e.1
          type := if e.2 then "directory" else "file"
          path := pjoin resolved e.1 : DirItem })).filter
            (fun i => i.type == "file")).length)
    + (((es.map (fun e =>
        { name := e.1
          type := if e.2 then "directory" else "file"
          path := pjoin resolved e.1 : DirItem })).filter
            (fun i => i.type == "directory")).length)
    = es.length := by
  intro es
  induction es with
  | nil => simp
  | cons e rest ih =>
    cases hb : e.2 <;>
      simp [List.filter_cons, hb, show (("directory" : String) == "file") = false from by decide,
        show (("file" : String) == "directory") = false from by decide] <;>
      omega

/-- C9: `analyzeFolder` aggregates exactly the immediate children.  On the
fixture's empty directory it reports zero items; on a directory with two
files (`.pdf`, `.json`) and one non-empty subdirectory it reports
`totalItems 3, files 2, directories 1` with `fileTypes` counting `.pdf`
and `.json` once each (contents of the subdirectory are not counted); a
directory with an upper-case extension and an extension-less file shows
the lower-casing and the literal `no-extension` key.  In general the
`files` and `directories` counts of any successful analysis partition
`totalItems`. -/
theorem c9_analyzeFolder_immediate :
    (analyzeFolder fs9 cwd0 "api-resources/empty").1 =
      .ok { path := "/app/api-resources/empty", totalItems := 0, files := 0,
            directories := 0, fileTypes := [], structureList := [] } ∧
    (analyzeFolder fs9 cwd0 "api-resources/docs").1 =
      .ok { path := "/app/api-resources/docs", totalItems := 3, files := 2,
            directories := 1, fileTypes := [(".pdf", 1), (".json", 1)],
            structureList :=
              [{ name := "report.pdf", type := "file",
                 path := "/app/api-resources/docs/report.pdf" },
               { name := "data.json", type := "file",
                 path := "/app/api-resources/docs/data.json" },
               { name := "sub", type := "directory",
                 path := "/app/api-resources/docs/sub" }] } ∧
    (analyzeFolder fs9 cwd0 "api-resources/mixed").1 =
      .ok { path := "/app/api-resources/mixed", totalItems := 2, files := 2,
            directories := 0, fileTypes := [("no-extension", 1), (".pdf", 1)],
            structureList :=
              [{ name := "README", type := "file",
                 path := "/app/api-resources/mixed/README" },
               { name := "A.PDF", type := "file",
                 path := "/app/api-resources/mixed/A.PDF" }] } ∧
    (∀ (fs : FsNode) (cwd p : String) (r : FolderAnalysis),
      (analyzeFolder fs cwd p).1 = .ok r → r.files + r.directories = r.totalItems) := by
  refine ⟨by decide, by decide, by decide, ?_⟩
  intro fs cwd p r h
  unfold analyzeFolder at h
  cases hv : validatePath cwd (jsOr p "api-resources") with
  | error m => rw [hv] at h; simp at h
  | ok resolved =>
    rw [hv] at h
    cases ha : accessR fs resolved with
    | error e => simp [FsOut.bnd, liftFs, ha, Except.mapError] at h
    | ok u =>
      cases hs : statFs fs resolved with
      | error e => simp [FsOut.bnd, liftFs, ha, hs, Except.mapError] at h
      | ok st =>
        simp only [FsOut.bnd, liftFs, ha, hs, Except.mapError] at h
        by_cases hd : st.isDir
        · simp only [hd, Bool.not_true, Bool.false_eq_true, if_false] at h
          cases hld : (listDirectory fs cwd resolved) with
          | mk res tr =>
            cases res with
            | error e => rw [hld] at h; simp at h
            | ok items =>
              rw [hld] at h
              simp only at h
              cases h₂ : h.symm with
              | refl =>
                have hshape := listDirectory_ok_shape
                  (show (listDirectory fs cwd resolved).1 = .ok items from by rw [hld])
                obtain ⟨res2, es, _, _, hitems⟩ := hshape
                subst hitems
                simpa using countFileDir res2 es
        · simp [hd] at h

/-- The serverless adapter's manual CORS middleware answers every
preflight (`OPTIONS`) request, to any path and with or without a matching
`Origin` header, with HTTP 200 and `Access-Control-Allow-Methods: GET,
POST, OPTIONS`, regardless of the downstream route handlers. -/
theorem adapterPreflight_200 (isDevelopment : Bool)
    (routes : HttpReq → List (String × String) → Nat × List (String × String))
    (req : HttpReq) (h : req.method = "OPTIONS") :
    (handleRequest isDevelopment routes req).1 = 200 ∧
    (handleRequest isDevelopment routes req).2.lookup "Access-Control-Allow-Methods" =
      some "GET, POST, OPTIONS" := by
  unfold handleRequest corsMiddleware
  rw [h]
  cases req.origin with
  | none => refine ⟨by simp, by simp [corsHeadersTail]; decide⟩
  | some origin =>
    by_cases hc : (allowedOrigins isDevelopment).contains origin <;>
      simp [hc, corsHeadersTail, List.lookup]

/-- The inline MCP server's Express app (default `cors()`) answers every
preflight with HTTP 204 and the package's default method list. -/
theorem expressPreflight_204
    (routes : HttpReq → List (String × String) → Nat × List (String × String))
    (req : HttpReq) (h : req.method = "OPTIONS") :
    (expressHandleRequest routes req).1 = 204 ∧
    (expressHandleRequest routes req).2.lookup "Access-Control-Allow-Methods" =
      some "GET,HEAD,PUT,PATCH,POST,DELETE" := by
  unfold expressHandleRequest corsDefaultMiddleware
  rw [h]
  exact ⟨rfl, rfl⟩

/-- C4 (counterexample): in the inline MCP server's Express app, whose
`app.use(cors())` call uses the package defaults, a preflight `OPTIONS`
request is answered with status 204 and `Access-Control-Allow-Methods:
GET,HEAD,PUT,PATCH,POST,DELETE` — not with 200 and `GET, POST, OPTIONS`
as the claim states for every API route of the cited sources. -/
theorem c4_preflight_counterexample :
    (expressHandleRequest (fun _ _ => (500, []))
        { method := "OPTIONS", path := "/api/chat",
          origin := some "https://evil.example" }).1 = 204 ∧
    (expressHandleRequest (fun _ _ => (500, []))
        { method := "OPTIONS", path := "/api/chat",
          origin := some "https://evil.example" }).2.lookup
        "Access-Control-Allow-Methods" = some "GET,HEAD,PUT,PATCH,POST,DELETE" ∧
    ¬((expressHandleRequest (fun _ _ => (500, []))
        { method := "OPTIONS", path := "/api/chat",
          origin := some "https://evil.example" }).1 = 200) := by
  decide

/-- C4 (corrected): the preflight response depends on the variant.  The
serverless adapter's manual middleware answers every `OPTIONS` request
with 200 and `Access-Control-Allow-Methods: GET, POST, OPTIONS`; the
inline MCP server's Express app, registering `cors()` with no options,
answers every `OPTIONS` request with 204 and the package's default
`GET,HEAD,PUT,PATCH,POST,DELETE`. -/
theorem c4_preflight_by_variant :
    (∀ (isDevelopment : Bool)
       (routes : HttpReq → List (String × String) → Nat × List (String × String))
       (req : HttpReq), req.method = "OPTIONS" →
       (handleRequest isDevelopment routes req).1 = 200 ∧
       (handleRequest isDevelopment routes req).2.lookup "Access-Control-Allow-Methods" =
         some "GET, POST, OPTIONS")
    ∧ (∀ (routes : HttpReq → List (String × String) → Nat × List (String × String))
       (req : HttpReq), req.method = "OPTIONS" →
       (expressHandleRequest routes req).1 = 204 ∧
       (expressHandleRequest routes req).2.lookup "Access-Control-Allow-Methods" =
         some "GET,HEAD,PUT,PATCH,POST,DELETE") :=
  ⟨adapterPreflight_200, expressPreflight_204⟩

/-- C4 witness: a preflight to `/api/chat` from an unlisted origin, with a
route stack that would answer 500, through both variants. -/
theorem c4_preflight_by_variant_witness :
    ({ method := "OPTIONS", path := "/api/chat",
       origin := some "https://evil.example" } : HttpReq).method = "OPTIONS" ∧
    (handleRequest true (fun _ _ => (500, []))
        { method := "OPTIONS", path := "/api/chat",
          origin := some "https://evil.example" }).1 = 200 ∧
    (expressHandleRequest (fun _ _ => (500, []))
        { method := "OPTIONS", path := "/api/chat",
          origin := some "https://evil.example" }).1 = 204 :=
  ⟨rfl,
   (c4_preflight_by_variant.1 true (fun _ _ => (500, []))
      { method := "OPTIONS", path := "/api/chat",
        origin := some "https://evil.example" } rfl).1,
   (c4_preflight_by_variant.2 (fun _ _ => (500, []))
      { method := "OPTIONS", path := "/api/chat",
        origin := some "https://evil.example" } rfl).1⟩

/-- C5 (counterexample): the upstream text `"Yes"` satisfies the claim's
cut-off condition (it ends in a bare letter), yet the adapter returns it
unmodified — the code additionally requires the text to be longer than 30
characters, which the claim omits. -/
theorem c5_short_response_counterexample :
    specCutOffCond "Yes" = true ∧
    (applyTruncationRepair "Yes").1 = "Yes" ∧
    (applyTruncationRepair "Yes").1 ≠ rtrimWS "Yes" ++ repairTail := by
  refine ⟨by decide, by decide, by decide⟩

/-- C5 (amended): the adapter patches the upstream text exactly when it is
longer than 30 characters AND satisfies the spec's cut-off condition (bare
letter / dash / comma-colon-semicolon ending, or no terminal sentence
punctuation without the phrase `More details?`); the patch strips trailing
whitespace and appends the ellipsis, the `Response was incomplete!` notice
and the fixed `Underdog Frontend Engineer` paragraph; otherwise the text
is returned unmodified.  (The source's extra `\b[A-Za-z]$` disjunct is
subsumed by the bare-letter test.) -/
theorem c5_truncation_repair_characterisation (s : String) :
    (applyTruncationRepair s).1 =
      if 30 < jsLength s ∧ specCutOffCond s = true
      then rtrimWS s ++ repairTail else s := by
  unfold applyTruncationRepair seemsTruncated specCutOffCond
  by_cases hb : endsBoundaryLetter s = true
  · have h1 := boundary_letter_implies hb
    by_cases hl : 30 < jsLength s <;> simp [hb, h1, hl]
  · simp only [Bool.not_eq_true] at hb
    by_cases hl : 30 < jsLength s <;> simp [hb, hl] <;> split <;> rfl

theorem chatCatch_error_prefix (msg : String) :
    jsStartsWith (chatCatch msg) "Error: " = true := by
  unfold chatCatch
  exact jsStartsWith_append _ _ _ (jsStartsWith_append _ _ _
    (jsStartsWith_append _ _ _ (jsStartsWith_append_left "Error: " msg)))

/-- C10: `FileContextChat.chat` mutates the conversation atomically: a run
that produces a response appends exactly the two turns `{role: 'user'}`
with the original message and `{role: 'assistant'}` with the response (in
that order) and returns the response; a run that ends in the catch block
leaves the conversation unchanged and returns an `Error: `-prefixed
string. -/
theorem c10_chat_conversation_atomic (conv : List ChatTurn) (message : String)
    (calls : List FnCall) (execute : FnCall → Except String String)
    (respond : String → Except String String) :
    (∃ content, chatModel conv message calls execute respond =
        (conv ++ [{ role := "user", content := message },
                  { role := "assistant", content := content }], content))
    ∨ (∃ e, chatModel conv message calls execute respond = (conv, chatCatch e) ∧
        jsStartsWith (chatModel conv message calls execute respond).2 "Error: " = true) := by
  unfold chatModel
  cases hr : runCalls execute calls with
  | error e => exact Or.inr ⟨e, rfl, by simpa using chatCatch_error_prefix e⟩
  | ok blocks =>
    cases hresp : respond (if calls.length > 0
        then message ++ "\n\nFile system results:\n" ++ blocks else message) with
    | error e => exact Or.inr ⟨e, by simp [hresp], by simp [hresp, chatCatch_error_prefix e]⟩
    | ok content => exact Or.inl ⟨content, by simp [hresp]⟩

theorem searchEntries_pattern_congr {p q : String} (h : jsToLower p = jsToLower q) :
    ∀ (e : FsEntries) (cur : String), searchEntries p e cur = searchEntries q e cur := by
  intro e cur
  induction e, cur using searchEntries.induct p <;>
    simp only [searchEntries, h] <;> simp_all

/-- C8: `searchFiles` depends on the pattern only through its lower-cased
form, so any two patterns equal up to letter case give identical results
(matching is case-insensitive pure substring containment). -/
theorem c8_search_case_insensitive (fs : FsNode) (cwd root p q : String)
    (h : jsToLower p = jsToLower q) :
    searchFiles fs cwd root p = searchFiles fs cwd root q := by
  unfold searchFiles
  cases hv : validatePath cwd (jsOr root "api-resources") with
  | error m => rfl
  | ok r =>
    dsimp only
    cases hl : lookupNode fs r with
    | none => rfl
    | some node =>
      cases node with
      | file c rd mt => rfl
      | dir rd ch =>
        dsimp only
        rw [searchEntries_pattern_congr h ch r]

/-- C8 witness: on the document-corpus fixture, searching `test` and
`TEST` from the jail root returns identical results. -/
theorem c8_search_case_insensitive_witness :
    searchFiles fs0 cwd0 "api-resources" "test" =
      searchFiles fs0 cwd0 "api-resources" "TEST" :=
  c8_search_case_insensitive fs0 cwd0 "api-resources" "test" "TEST" (by decide)

/-- C7: `searchFiles` never fails as a whole: a root rejected by
`validatePath` yields the empty result; a missing root directory yields
the empty result (the attempted `readdir` is still traced); an unreadable
root directory likewise; and an unreadable subdirectory contributes no
results, with its siblings' results preserved. -/
theorem c7_search_error_resilience :
    (∀ (fs : FsNode) (cwd root pat m : String),
      validatePath cwd (jsOr root "api-resources") = .error m →
      searchFiles fs cwd root pat = ([], [])) ∧
    (∀ (fs : FsNode) (cwd root pat r : String),
      validatePath cwd (jsOr root "api-resources") = .ok r →
      lookupNode fs r = none →
      searchFiles fs cwd root pat = ([], [r])) ∧
    (∀ (fs : FsNode) (cwd root pat r : String) (ch : FsEntries),
      validatePath cwd (jsOr root "api-resources") = .ok r →
      lookupNode fs r = some (.dir false ch) →
      searchFiles fs cwd root pat = ([], [r])) ∧
    (∀ (pat name : String) (ch rest : FsEntries) (cur : String),
      (searchEntries pat (.cons name (.dir false ch) rest) cur).1 =
        (searchEntries pat rest cur).1) := by
  refine ⟨?_, ?_, ?_, ?_⟩
  · intro fs cwd root pat m hv
    unfold searchFiles
    rw [hv]
  · intro fs cwd root pat r hv hl
    unfold searchFiles
    rw [hv]
    dsimp only
    rw [hl]
  · intro fs cwd root pat r ch hv hl
    unfold searchFiles
    rw [hv]
    dsimp only
    rw [hl]
    simp
  · intro pat name ch rest cur
    by_cases hd : jsStartsWith name "." = true <;> simp [searchEntries, hd]

/-- C7 witness: the root `..` is rejected by `validatePath` (its basename
retry resolves to the cwd itself, outside the jail), and `searchFiles`
returns the empty result instead of an error. -/
theorem c7_search_error_resilience_witness :
    searchFiles fs0 cwd0 ".." "resume" = ([], []) :=
  c7_search_error_resilience.1 fs0 cwd0 ".." "resume" (accessDeniedMsg "..")
    (by decide)

/-- C3 (counterexample): the hardened `searchFiles` has no `node_modules`
guard — on a corpus whose jail contains `node_modules/evil.txt`, the file
is returned (while the `.hidden` directory is skipped), contradicting the
claim that results never lie under a directory named `node_modules`. -/
theorem c3_node_modules_counterexample :
    searchFiles fs3 cwd0 "api-resources" "" =
      (["/app/api-resources/node_modules/evil.txt",
        "/app/api-resources/visible.txt"],
       ["/app/api-resources", "/app/api-resources/node_modules"]) := by
  decide

theorem searchEntries_descent (pat : String) (e : FsEntries) (cur : String) :
    ∀ x ∈ (searchEntries pat e cur).1,
      ∃ comps name, x = (comps ++ [name]).foldl pjoin cur ∧
        ∀ c ∈ comps, jsStartsWith c "." = false := by
  induction e, cur using searchEntries.induct pat with
  | case1 cur =>
    intro x hx
    simp [searchEntries] at hx
  | case2 name content readable mtime rest cur ih =>
    intro x hx
    simp only [searchEntries, List.mem_append] at hx
    rcases hx with hx | hx
    · by_cases hm : strIncludes (jsToLower name) (jsToLower pat) = true
      · simp only [hm, if_true, List.mem_singleton] at hx
        exact ⟨[], name, by simp [hx], by simp⟩
      · simp only [Bool.not_eq_true] at hm
        simp [hm] at hx
    · exact ih x hx
  | case3 name rd ch rest cur ep ih1 ih2 =>
    intro x hx
    simp only [searchEntries, List.mem_append] at hx
    rcases hx with hx | hx
    · by_cases hd : jsStartsWith name "." = true
      · simp [hd] at hx
      · simp only [Bool.not_eq_true] at hd
        cases rd with
        | false => simp [hd] at hx
        | true =>
          simp only [hd, Bool.not_false, if_true] at hx
          obtain ⟨comps, nm, heq, hgood⟩ := ih1 x (by simpa using hx)
          refine ⟨name :: comps, nm, ?_, ?_⟩
          · simpa [List.foldl_cons] using heq
          · intro c hc
            rcases List.mem_cons.mp hc with rfl | hc
            · exact hd
            · exact hgood c hc
    · exact ih2 x hx

theorem mcpSearchEntries_descent (pat : String) (e : FsEntries) (cur : String) :
    ∀ x ∈ mcpSearchEntries pat e cur,
      ∃ comps name, x = (comps ++ [name]).foldl pjoin cur ∧
        ∀ c ∈ comps, jsStartsWith c "." = false ∧ c ≠ "node_modules" := by
  induction e, cur using mcpSearchEntries.induct pat with
  | case1 cur =>
    intro x hx
    simp [mcpSearchEntries] at hx
  | case2 name content readable mtime rest cur ih =>
    intro x hx
    simp only [mcpSearchEntries, List.mem_append] at hx
    rcases hx with hx | hx
    · by_cases hm : strIncludes (jsToLower name) (jsToLower pat) = true
      · simp only [hm, if_true, List.mem_singleton] at hx
        exact ⟨[], name, by simp [hx], by simp⟩
      · simp only [Bool.not_eq_true] at hm
        simp [hm] at hx
    · exact ih x hx
  | case3 name rd ch rest cur ih1 ih2 =>
    intro x hx
    simp only [mcpSearchEntries, List.mem_append] at hx
    rcases hx with hx | hx
    · by_cases hd : (!jsStartsWith name "." && !(name == "node_modules")) = true
      · cases rd with
        | false => simp [hd] at hx
        | true =>
          simp only [hd, if_true] at hx
          simp only [Bool.and_eq_true, Bool.not_eq_true', beq_eq_false_iff_ne] at hd
          obtain ⟨comps, nm, heq, hgood⟩ := ih1 x (by simpa using hx)
          refine ⟨name :: comps, nm, ?_, ?_⟩
          · simpa [List.foldl_cons] using heq
          · intro c hc
            rcases List.mem_cons.mp hc with rfl | hc
            · exact ⟨hd.1, hd.2⟩
            · exact hgood c hc
      · simp only [Bool.not_eq_true] at hd
        simp [hd] at hx
    · exact ih2 x hx

/-- C3 (amended): the hardened `searchFiles` descends only into
subdirectories whose name does not start with `.` — it does NOT skip
`node_modules` — so every returned path decomposes over directories none
of which is `.`-prefixed; the inline MCP-server copy additionally skips
`node_modules`, so its results decompose over directories that are neither
`.`-prefixed nor literally `node_modules`. -/
theorem c3_descent_policy :
    (∀ (fs : FsNode) (cwd root pat x : String),
      x ∈ (searchFiles fs cwd root pat).1 →
      ∃ resolved comps name,
        validatePath cwd (jsOr root "api-resources") = .ok resolved ∧
        x = (comps ++ [name]).foldl pjoin resolved ∧
        ∀ c ∈ comps, jsStartsWith c "." = false) ∧
    (∀ (fs : FsNode) (cwd root pat x : String),
      x ∈ mcpSearchFiles fs cwd root pat →
      ∃ comps name, x = (comps ++ [name]).foldl pjoin (presolve cwd root) ∧
        ∀ c ∈ comps, jsStartsWith c "." = false ∧ c ≠ "node_modules") := by
  constructor
  · intro fs cwd root pat x hx
    unfold searchFiles at hx
    cases hv : validatePath cwd (jsOr root "api-resources") with
    | error m => rw [hv] at hx; simp at hx
    | ok r =>
      rw [hv] at hx
      dsimp only at hx
      cases hl : lookupNode fs r with
      | none => rw [hl] at hx; simp at hx
      | some node =>
        rw [hl] at hx
        cases node with
        | file c rd mt => simp at hx
        | dir rd ch =>
          cases rd with
          | false => simp at hx
          | true =>
            obtain ⟨comps, nm, heq, hgood⟩ :=
              searchEntries_descent pat ch r x (by simpa using hx)
            exact ⟨r, comps, nm, rfl, heq, hgood⟩
  · intro fs cwd root pat x hx
    unfold mcpSearchFiles at hx
    dsimp only at hx
    cases hl : lookupNode fs (presolve cwd root) with
    | none => rw [hl] at hx; simp at hx
    | some node =>
      rw [hl] at hx
      cases node with
      | file c rd mt => simp at hx
      | dir rd ch =>
        cases rd with
        | false => simp at hx
        | true =>
          exact mcpSearchEntries_descent pat ch (presolve cwd root) x
            (by simpa using hx)

/-- C3 witness: the node_modules payload returned by the hardened walk on
the fixture decomposes with the (single) traversed directory
`node_modules` not starting with a dot. -/
theorem c3_descent_policy_witness :
    ∃ resolved comps name,
      validatePath cwd0 (jsOr "api-resources" "api-resources") = .ok resolved ∧
      "/app/api-resources/node_modules/evil.txt" =
        (comps ++ [name]).foldl pjoin resolved ∧
      ∀ c ∈ comps, jsStartsWith c "." = false :=
  c3_descent_policy.1 fs3 cwd0 "api-resources" ""
    "/app/api-resources/node_modules/evil.txt" (by decide)

theorem searchEntries_trace (pat : String) (e : FsEntries) (cur : String) :
    ∀ q ∈ (searchEntries pat e cur).2, jsStartsWith q cur = true := by
  induction e, cur using searchEntries.induct pat with
  | case1 cur =>
    intro q hq
    simp [searchEntries] at hq
  | case2 name content readable mtime rest cur ih =>
    intro q hq
    simp only [searchEntries, List.mem_append] at hq
    rcases hq with hq | hq
    · by_cases hm : strIncludes (jsToLower name) (jsToLower pat) = true <;>
        simp [hm] at hq
    · exact ih q hq
  | case3 name rd ch rest cur ep ih1 ih2 =>
    intro q hq
    simp only [searchEntries, List.mem_append] at hq
    rcases hq with hq | hq
    · by_cases hd : jsStartsWith name "." = true
      · simp [hd] at hq
      · simp only [Bool.not_eq_true] at hd
        cases rd with
        | false =>
          simp only [hd, Bool.not_false, if_true, Bool.false_eq_true, if_false,
            List.mem_singleton] at hq
          subst hq
          exact jsStartsWith_pjoin cur name cur (jsStartsWith_refl cur)
        | true =>
          simp only [hd, Bool.not_false, if_true, List.mem_cons] at hq
          rcases hq with rfl | hq
          · exact jsStartsWith_pjoin cur name cur (jsStartsWith_refl cur)
          · exact jsStartsWith_trans
              (jsStartsWith_pjoin cur name cur (jsStartsWith_refl cur))
              (ih1 q (by simpa using hq))
    · exact ih2 q hq

theorem readFileContent_trace (fs : FsNode) (cwd p : String) :
    ∀ q ∈ (readFileContent fs cwd p).2,
      jsStartsWith q (allowedBasePath cwd) = true := by
  intro q hq
  unfold readFileContent at hq
  cases hv : validatePath cwd p with
  | error m => rw [hv] at hq; simp at hq
  | ok r =>
    rw [hv] at hq
    have hpre := (validatePath_ok_cases hv).1
    cases ha : accessR fs r with
    | error e => simp [FsOut.bnd, liftFs, ha, Except.mapError] at hq; simpa [hq] using hpre
    | ok u =>
      cases hr : readFileFs fs r with
      | error e =>
        simp [FsOut.bnd, liftFs, ha, hr, Except.mapError] at hq
        rcases hq with rfl | rfl <;> exact hpre
      | ok content =>
        simp [FsOut.bnd, liftFs, ha, hr, Except.mapError] at hq
        rcases hq with rfl | rfl <;> exact hpre

theorem listDirectory_trace (fs : FsNode) (cwd d : String) :
    ∀ q ∈ (listDirectory fs cwd d).2,
      jsStartsWith q (allowedBasePath cwd) = true := by
  intro q hq
  unfold listDirectory at hq
  cases hv : validatePath cwd (jsOr d "api-resources") with
  | error m => rw [hv] at hq; simp at hq
  | ok r =>
    rw [hv] at hq
    have hpre := (validatePath_ok_cases hv).1
    cases ha : accessR fs r with
    | error e => simp [FsOut.bnd, liftFs, ha, Except.mapError] at hq; simpa [hq] using hpre
    | ok u =>
      cases hr : readdirFs fs r with
      | error e =>
        simp [FsOut.bnd, liftFs, ha, hr, Except.mapError] at hq
        rcases hq with rfl | rfl <;> exact hpre
      | ok es =>
        simp [FsOut.bnd, liftFs, ha, hr, Except.mapError] at hq
        rcases hq with rfl | rfl <;> exact hpre

theorem listDirectory_items_prefix {fs : FsNode} {cwd d : String}
    {items : List DirItem} (h : (listDirectory fs cwd d).1 = .ok items) :
    ∀ it ∈ items, jsStartsWith it.path (allowedBasePath cwd) = true := by
  obtain ⟨resolved, es, hv, _, hitems⟩ := listDirectory_ok_shape h
  subst hitems
  intro it hit
  obtain ⟨e, _, rfl⟩ := List.mem_map.mp hit
  exact jsStartsWith_pjoin resolved e.1 _ (validatePath_ok_cases hv).1

theorem searchFiles_trace (fs : FsNode) (cwd root pat : String) :
    ∀ q ∈ (searchFiles fs cwd root pat).2,
      jsStartsWith q (allowedBasePath cwd) = true := by
  intro q hq
  unfold searchFiles at hq
  cases hv : validatePath cwd (jsOr root "api-resources") with
  | error m => rw [hv] at hq; simp at hq
  | ok r =>
    rw [hv] at hq
    dsimp only at hq
    have hpre := (validatePath_ok_cases hv).1
    cases hl : lookupNode fs r with
    | none => rw [hl] at hq; simp at hq; simpa [hq] using hpre
    | some node =>
      rw [hl] at hq
      cases node with
      | file c rd mt => simp at hq; simpa [hq] using hpre
      | dir rd ch =>
        cases rd with
        | false => simp at hq; simpa [hq] using hpre
        | true =>
          simp only [if_true, List.mem_cons] at hq
          rcases hq with rfl | hq
          · exact hpre
          · exact jsStartsWith_trans hpre (searchEntries_trace pat ch r q (by simpa using hq))

theorem analyzeFolder_trace (fs : FsNode) (cwd p : String) :
    ∀ q ∈ (analyzeFolder fs cwd p).2,
      jsStartsWith q (allowedBasePath cwd) = true := by
  intro q hq
  unfold analyzeFolder at hq
  cases hv : validatePath cwd (jsOr p "api-resources") with
  | error m => rw [hv] at hq; simp at hq
  | ok r =>
    rw [hv] at hq
    have hpre := (validatePath_ok_cases hv).1
    cases ha : accessR fs r with
    | error e => simp [FsOut.bnd, liftFs, ha, Except.mapError] at hq; simpa [hq] using hpre
    | ok u =>
      cases hs : statFs fs r with
      | error e =>
        simp [FsOut.bnd, liftFs, ha, hs, Except.mapError] at hq
        rcases hq with rfl | rfl <;> exact hpre
      | ok st =>
        by_cases hd : st.isDir
        · simp only [FsOut.bnd, liftFs, ha, hs, Except.mapError, hd, Bool.not_true,
            Bool.false_eq_true, if_false] at hq
          cases hld : listDirectory fs cwd r with
          | mk res tr =>
            rw [hld] at hq
            cases res with
            | error e =>
              simp only [List.singleton_append, List.cons_append, List.nil_append,
                List.append_nil, List.mem_cons] at hq
              rcases hq with rfl | rfl | hq
              · exact hpre
              · exact hpre
              · exact listDirectory_trace fs cwd r q (by rw [hld]; exact hq)
            | ok items =>
              simp only [List.singleton_append, List.cons_append, List.nil_append,
                List.append_nil, List.mem_cons] at hq
              rcases hq with rfl | rfl | hq
              · exact hpre
              · exact hpre
              · exact listDirectory_trace fs cwd r q (by rw [hld]; exact hq)
        · simp only [Bool.not_eq_true] at hd
          simp [FsOut.bnd, liftFs, ha, hs, Except.mapError, hd] at hq
          rcases hq with rfl | rfl <;> exact hpre

theorem summarizeFile_trace (fs : FsNode) (cwd : String)
    (fmtDate : String → String) (p : String) :
    ∀ q ∈ (summarizeFile fs cwd fmtDate p).2,
      jsStartsWith q (allowedBasePath cwd) = true := by
  intro q hq
  unfold summarizeFile at hq
  cases hv : validatePath cwd p with
  | error m => rw [hv] at hq; simp at hq
  | ok r =>
    rw [hv] at hq
    have hpre := (validatePath_ok_cases hv).1
    cases ha : accessR fs r with
    | error e => simp [FsOut.bnd, liftFs, ha, Except.mapError] at hq; simpa [hq] using hpre
    | ok u =>
      cases hs : statFs fs r with
      | error e =>
        simp [FsOut.bnd, liftFs, ha, hs, Except.mapError] at hq
        rcases hq with rfl | rfl <;> exact hpre
      | ok st =>
        cases hr : readFileFs fs r with
        | error e =>
          simp [FsOut.bnd, liftFs, ha, hs, hr, Except.mapError] at hq
          rcases hq with rfl | rfl | rfl <;> exact hpre
        | ok content =>
          simp [FsOut.bnd, liftFs, ha, hs, hr, Except.mapError] at hq
          rcases hq with rfl | rfl | rfl <;> exact hpre

theorem sumLoop_trace (fs : FsNode) (all : List DirItem) :
    ∀ (files : List DirItem) (i : Nat) (summary : String) (currentLength : Nat),
      ∀ q ∈ (sumLoop fs all files i summary currentLength).2,
        ∃ f ∈ files, q = f.path := by
  intro files
  induction files with
  | nil => intro i s l q hq; simp [sumLoop] at hq
  | cons file rest ih =>
    intro i s l q hq
    simp only [sumLoop] at hq
    cases hrf : readFileFs fs file.path with
    | error e =>
      rw [hrf] at hq
      simp only [List.mem_cons] at hq
      rcases hq with rfl | hq
      · exact ⟨file, List.mem_cons_self file rest, rfl⟩
      · obtain ⟨f, hf, rfl⟩ := ih _ _ _ q hq
        exact ⟨f, List.mem_cons_of_mem file hf, rfl⟩
    | ok content =>
      rw [hrf] at hq
      cases hst : statFs fs file.path with
      | error e =>
        rw [hst] at hq
        simp only [List.mem_cons] at hq
        rcases hq with rfl | rfl | hq
        · exact ⟨file, List.mem_cons_self file rest, rfl⟩
        · exact ⟨file, List.mem_cons_self file rest, rfl⟩
        · obtain ⟨f, hf, rfl⟩ := ih _ _ _ q hq
          exact ⟨f, List.mem_cons_of_mem file hf, rfl⟩
      | ok st =>
        rw [hst] at hq
        dsimp only at hq
        split at hq
        · rcases List.mem_cons.mp hq with rfl | hq2
          · exact ⟨file, List.mem_cons_self file rest, rfl⟩
          · rcases List.mem_cons.mp hq2 with rfl | hq3
            · exact ⟨file, List.mem_cons_self file rest, rfl⟩
            · exact absurd hq3 (List.not_mem_nil q)
        · rcases List.mem_cons.mp hq with rfl | hq2
          · exact ⟨file, List.mem_cons_self file rest, rfl⟩
          · rcases List.mem_cons.mp hq2 with rfl | hq3
            · exact ⟨file, List.mem_cons_self file rest, rfl⟩
            · obtain ⟨f, hf, rfl⟩ := ih _ _ _ q hq3
              exact ⟨f, List.mem_cons_of_mem file hf, rfl⟩

theorem subjLoop_trace (fs : FsNode) :
    ∀ (files : List DirItem) (acc : String),
      ∀ q ∈ (subjLoop fs files acc).2, ∃ f ∈ files, q = f.path := by
  intro files
  induction files with
  | nil => intro acc q hq; simp [subjLoop] at hq
  | cons file rest ih =>
    intro acc q hq
    simp only [subjLoop] at hq
    cases hrf : readFileFs fs file.path with
    | error e =>
      rw [hrf] at hq
      dsimp only at hq
      rcases List.mem_cons.mp hq with rfl | hq2
      · exact ⟨file, List.mem_cons_self file rest, rfl⟩
      · obtain ⟨f, hf, rfl⟩ := ih _ q hq2
        exact ⟨f, List.mem_cons_of_mem file hf, rfl⟩
    | ok content =>
      rw [hrf] at hq
      dsimp only at hq
      rcases List.mem_cons.mp hq with rfl | hq2
      · exact ⟨file, List.mem_cons_self file rest, rfl⟩
      · obtain ⟨f, hf, rfl⟩ := ih _ q hq2
        exact ⟨f, List.mem_cons_of_mem file hf, rfl⟩

theorem keyLoop_trace (jsonParse : String → Option JsVal) (fs : FsNode) :
    ∀ (files : List DirItem) (acc : String) (currentLength : Nat),
      ∀ q ∈ (keyLoop jsonParse fs files acc currentLength).2, ∃ f ∈ files, q = f.path := by
  intro files
  induction files with
  | nil => intro acc l q hq; simp [keyLoop] at hq
  | cons file rest ih =>
    intro acc l q hq
    simp only [keyLoop] at hq
    cases hrf : readFileFs fs file.path with
    | error e =>
      rw [hrf] at hq
      dsimp only at hq
      rcases List.mem_cons.mp hq with rfl | hq2
      · exact ⟨file, List.mem_cons_self file rest, rfl⟩
      · obtain ⟨f, hf, rfl⟩ := ih _ _ q hq2
        exact ⟨f, List.mem_cons_of_mem file hf, rfl⟩
    | ok content =>
      rw [hrf] at hq
      cases hst : statFs fs file.path with
      | error e =>
        rw [hst] at hq
        dsimp only at hq
        rcases List.mem_cons.mp hq with rfl | hq2
        · exact ⟨file, List.mem_cons_self file rest, rfl⟩
        · rcases List.mem_cons.mp hq2 with rfl | hq3
          · exact ⟨file, List.mem_cons_self file rest, rfl⟩
          · obtain ⟨f, hf, rfl⟩ := ih _ _ q hq3
            exact ⟨f, List.mem_cons_of_mem file hf, rfl⟩
      | ok st =>
        rw [hst] at hq
        dsimp only at hq
        split at hq
        · rcases List.mem_cons.mp hq with rfl | hq2
          · exact ⟨file, List.mem_cons_self file rest, rfl⟩
          · rcases List.mem_cons.mp hq2 with rfl | hq3
            · exact ⟨file, List.mem_cons_self file rest, rfl⟩
            · exact absurd hq3 (List.not_mem_nil q)
        · rcases List.mem_cons.mp hq with rfl | hq2
          · exact ⟨file, List.mem_cons_self file rest, rfl⟩
          · rcases List.mem_cons.mp hq2 with rfl | hq3
            · exact ⟨file, List.mem_cons_self file rest, rfl⟩
            · obtain ⟨f, hf, rfl⟩ := ih _ _ q hq3
              exact ⟨f, List.mem_cons_of_mem file hf, rfl⟩

theorem summarizeAllFiles_trace (fs : FsNode) (cwd d : String) :
    ∀ q ∈ (summarizeAllFiles fs cwd d).2,
      jsStartsWith q (allowedBasePath cwd) = true := by
  intro q hq
  unfold summarizeAllFiles at hq
  cases hv : validatePath cwd (jsOr d "api-resources") with
  | error m => rw [hv] at hq; simp at hq
  | ok r =>
    rw [hv] at hq
    cases hld : listDirectory fs cwd r with
    | mk res tr =>
      cases res with
      | error e =>
        simp only [FsOut.bnd, hld] at hq
        exact listDirectory_trace fs cwd r q (by rw [hld]; exact hq)
      | ok items =>
        simp only [FsOut.bnd, hld] at hq
        by_cases hfl : (items.filter (fun i => i.type == "file")).length = 0
        · simp only [hfl, eq_self_iff_true, ite_true, List.append_nil] at hq
          exact listDirectory_trace fs cwd r q (by rw [hld]; exact hq)
        · simp only [if_neg hfl] at hq
          rcases List.mem_append.mp hq with hq1 | hq2
          · exact listDirectory_trace fs cwd r q (by rw [hld]; exact hq1)
          · obtain ⟨f, hf, rfl⟩ := sumLoop_trace fs _ _ _ _ _ q hq2
            exact listDirectory_items_prefix (by rw [hld]) f
              ((List.mem_filter.mp hf).1)

theorem analyzeFileSubjects_trace (fs : FsNode) (cwd d : String)
    (optSingle : Bool) (optFile : String) :
    ∀ q ∈ (analyzeFileSubjects fs cwd d optSingle optFile).2,
      jsStartsWith q (allowedBasePath cwd) = true := by
  intro q hq
  unfold analyzeFileSubjects at hq
  cases hv : validatePath cwd (jsOr d "api-resources") with
  | error m => rw [hv] at hq; simp at hq
  | ok r =>
    rw [hv] at hq
    dsimp only at hq
    by_cases hsf : optSingle = true ∧ optFile ≠ ""
    · rw [if_pos hsf] at hq
      cases hvf : validatePath cwd optFile with
      | error m => rw [hvf] at hq; simp at hq
      | ok fp =>
        rw [hvf] at hq
        dsimp only at hq
        have hpre := (validatePath_ok_cases hvf).1
        cases hrf : readFileFs fs fp with
        | error e =>
          rw [hrf] at hq
          rcases List.mem_cons.mp hq with rfl | hq2
          · exact hpre
          · exact absurd hq2 (List.not_mem_nil q)
        | ok content =>
          rw [hrf] at hq
          dsimp only at hq
          cases hst : statFs fs fp with
          | error e =>
            rw [hst] at hq
            rcases List.mem_cons.mp hq with rfl | hq2
            · exact hpre
            · rcases List.mem_cons.mp hq2 with rfl | hq3
              · exact hpre
              · exact absurd hq3 (List.not_mem_nil q)
          | ok st =>
            rw [hst] at hq
            dsimp only at hq
            rcases List.mem_cons.mp hq with rfl | hq2
            · exact hpre
            · rcases List.mem_cons.mp hq2 with rfl | hq3
              · exact hpre
              · exact absurd hq3 (List.not_mem_nil q)
    · rw [if_neg hsf] at hq
      cases hld : listDirectory fs cwd r with
      | mk res tr =>
        cases res with
        | error e =>
          simp only [FsOut.bnd, hld] at hq
          exact listDirectory_trace fs cwd r q (by rw [hld]; exact hq)
        | ok items =>
          simp only [FsOut.bnd, hld] at hq
          by_cases hfl : (items.filter (fun i => i.type == "file")).length = 0
          · simp only [hfl, eq_self_iff_true, ite_true, List.append_nil] at hq
            exact listDirectory_trace fs cwd r q (by rw [hld]; exact hq)
          · simp only [if_neg hfl] at hq
            rcases List.mem_append.mp hq with hq1 | hq2
            · exact listDirectory_trace fs cwd r q (by rw [hld]; exact hq1)
            · obtain ⟨f, hf, rfl⟩ := subjLoop_trace fs _ _ q hq2
              exact listDirectory_items_prefix (by rw [hld]) f
                ((List.mem_filter.mp (List.mem_of_mem_take hf)).1)

theorem extractKeyInformation_trace (jsonParse : String → Option JsVal)
    (fs : FsNode) (cwd d : String) :
    ∀ q ∈ (extractKeyInformation jsonParse fs cwd d).2,
      jsStartsWith q (allowedBasePath cwd) = true := by
  intro q hq
  unfold extractKeyInformation at hq
  cases hv : validatePath cwd (jsOr d "api-resources") with
  | error m => rw [hv] at hq; simp at hq
  | ok r =>
    rw [hv] at hq
    cases hld : listDirectory fs cwd r with
    | mk res tr =>
      cases res with
      | error e =>
        simp only [FsOut.bnd, hld] at hq
        exact listDirectory_trace fs cwd r q (by rw [hld]; exact hq)
      | ok items =>
        simp only [FsOut.bnd, hld] at hq
        by_cases hfl : (items.filter (fun i => i.type == "file")).length = 0
        · simp only [hfl, eq_self_iff_true, ite_true, List.append_nil] at hq
          exact listDirectory_trace fs cwd r q (by rw [hld]; exact hq)
        · simp only [if_neg hfl] at hq
          rcases List.mem_append.mp hq with hq1 | hq2
          · exact listDirectory_trace fs cwd r q (by rw [hld]; exact hq1)
          · obtain ⟨f, hf, rfl⟩ := keyLoop_trace jsonParse fs _ _ _ q hq2
            exact listDirectory_items_prefix (by rw [hld]) f
              ((List.mem_filter.mp hf).1)

/-- C2: the jail invariant of the hardened library.  `validatePath` either
throws or returns a string with `ALLOWED_BASE_PATH` as a string prefix
(an out-of-jail path being rewritten to `ALLOWED_BASE_PATH` joined with
its basename rather than passed through), and every filesystem path
touched by `readFileContent`, `listDirectory`, `searchFiles`,
`analyzeFolder`, `summarizeFile`, `summarizeAllFiles`,
`analyzeFileSubjects` and `extractKeyInformation` — as recorded in each
operation's access trace — has `ALLOWED_BASE_PATH` as a string prefix. -/
theorem c2_jail_invariant :
    (∀ cwd p r, validatePath cwd p = .ok r →
      jsStartsWith r (allowedBasePath cwd) = true ∧
        (r = presolve cwd p ∨ r = presolve (allowedBasePath cwd) (pbasename p))) ∧
    (∀ (fs : FsNode) (cwd p : String), ∀ q ∈ (readFileContent fs cwd p).2,
      jsStartsWith q (allowedBasePath cwd) = true) ∧
    (∀ (fs : FsNode) (cwd d : String), ∀ q ∈ (listDirectory fs cwd d).2,
      jsStartsWith q (allowedBasePath cwd) = true) ∧
    (∀ (fs : FsNode) (cwd root pat : String), ∀ q ∈ (searchFiles fs cwd root pat).2,
      jsStartsWith q (allowedBasePath cwd) = true) ∧
    (∀ (fs : FsNode) (cwd p : String), ∀ q ∈ (analyzeFolder fs cwd p).2,
      jsStartsWith q (allowedBasePath cwd) = true) ∧
    (∀ (fs : FsNode) (cwd : String) (fmtDate : String → String) (p : String),
      ∀ q ∈ (summarizeFile fs cwd fmtDate p).2,
      jsStartsWith q (allowedBasePath cwd) = true) ∧
    (∀ (fs : FsNode) (cwd d : String), ∀ q ∈ (summarizeAllFiles fs cwd d).2,
      jsStartsWith q (allowedBasePath cwd) = true) ∧
    (∀ (fs : FsNode) (cwd d : String) (optSingle : Bool) (optFile : String),
      ∀ q ∈ (analyzeFileSubjects fs cwd d optSingle optFile).2,
      jsStartsWith q (allowedBasePath cwd) = true) ∧
    (∀ (jsonParse : String → Option JsVal) (fs : FsNode) (cwd d : String),
      ∀ q ∈ (extractKeyInformation jsonParse fs cwd d).2,
      jsStartsWith q (allowedBasePath cwd) = true) :=
  ⟨fun _ _ _ h => validatePath_ok_cases h,
   readFileContent_trace, listDirectory_trace, searchFiles_trace,
   analyzeFolder_trace, summarizeFile_trace, summarizeAllFiles_trace,
   analyzeFileSubjects_trace, extractKeyInformation_trace⟩

/-- C2 witness: on the corpus fixture, reading `profile.md` touches
exactly the jailed path `/app/api-resources/profile.md`, and the invariant
instantiates to it; the validated rewrite of `package.json` lands in the
jail as well. -/
theorem c2_jail_invariant_witness :
    jsStartsWith "/app/api-resources/profile.md" (allowedBasePath cwd0) = true ∧
    jsStartsWith "/app/api-resources/package.json" (allowedBasePath cwd0) = true :=
  ⟨c2_jail_invariant.2.1 fs0 cwd0 "api-resources/profile.md"
      "/app/api-resources/profile.md" (by decide),
   (c2_jail_invariant.1 cwd0 "package.json" "/app/api-resources/package.json"
      (by decide)).1⟩

/-- C9 witness: the partition property instantiated on the fixture's
`docs` directory: 2 files plus 1 directory account for the 3 items. -/
theorem c9_analyzeFolder_immediate_witness :
    ∃ r : FolderAnalysis, (analyzeFolder fs9 cwd0 "api-resources/docs").1 = .ok r ∧
      r.files + r.directories = r.totalItems := by
  refine ⟨{ path := "/app/api-resources/docs", totalItems := 3, files := 2,
            directories := 1, fileTypes := [(".pdf", 1), (".json", 1)],
            structureList :=
              [{ name := "report.pdf", type := "file",
                 path := "/app/api-resources/docs/report.pdf" },
               { name := "data.json", type := "file",
                 path := "/app/api-resources/docs/data.json" },
               { name := "sub", type := "directory",
                 path := "/app/api-resources/docs/sub" }] }, by decide, ?_⟩
  exact c9_analyzeFolder_immediate.2.2.2 fs9 cwd0 "api-resources/docs" _ (by decide)

theorem jsLength_append (a b : String) : jsLength (a ++ b) = jsLength a + jsLength b := by
  simp [jsLength, dataAppend]

theorem mkData (s : String) : String.mk s.data = s := by cases s; rfl

theorem splitOnCh_sep_cons (sep : Char) (l : List Char) :
    splitOnCh sep (sep :: l) = [] :: splitOnCh sep l := by
  simp [splitOnCh]

theorem splitOnCh_nosep_append {sep : Char} :
    ∀ (l rest : List Char) (hd : List Char) (tl : List (List Char)),
      sep ∉ l → splitOnCh sep rest = hd :: tl →
      splitOnCh sep (l ++ rest) = (l ++ hd) :: tl := by
  intro l
  induction l with
  | nil => intro rest hd tl _ h; simpa using h
  | cons c cs ih =>
    intro rest hd tl hmem h
    have hc : c ≠ sep := fun hcs => hmem (hcs ▸ List.mem_cons_self c cs)
    have hstep := ih rest hd tl (fun hm => hmem (List.mem_cons_of_mem c hm)) h
    simp only [List.cons_append, splitOnCh, if_neg hc]
    rw [show cs.append rest = cs ++ rest from rfl, hstep]

theorem splitOnCh_nosep {sep : Char} {l : List Char} (h : sep ∉ l) :
    splitOnCh sep l = [l] := by
  have := splitOnCh_nosep_append l [] [] [] h (by simp [splitOnCh])
  simpa using this

theorem splitJail (tail : List Char) :
    splitOnCh '/' (("/app/api-resources/").data ++ tail) =
      [[], ['a', 'p', 'p'],
       ['a', 'p', 'i', '-', 'r', 'e', 's', 'o', 'u', 'r', 'c', 'e', 's']] ++
        splitOnCh '/' tail := rfl

theorem splitPath_jail (nm : String) (h4 : ('/' : Char) ∉ nm.data) :
    splitPath ("/app/api-resources/" ++ nm) = ["", "app", "api-resources", nm] := by
  show (splitOnCh '/' ("/app/api-resources/" ++ nm).data).map String.mk = _
  rw [dataAppend, splitJail, splitOnCh_nosep h4]
  simp only [List.map_append, List.map_cons, List.map_nil, mkData]
  rfl

theorem splitPath_jail_file (nm f : String) (h4 : ('/' : Char) ∉ nm.data)
    (hf : ('/' : Char) ∉ f.data) :
    splitPath ((("/app/api-resources/" ++ nm) ++ "/") ++ f) =
      ["", "app", "api-resources", nm, f] := by
  show (splitOnCh '/' ((("/app/api-resources/" ++ nm) ++ "/") ++ f).data).map String.mk = _
  have hd : ((("/app/api-resources/" ++ nm) ++ "/") ++ f).data =
      ("/app/api-resources/").data ++ (nm.data ++ ('/' :: f.data)) := by
    simp [dataAppend, List.append_assoc]
  rw [hd, splitJail,
    splitOnCh_nosep_append nm.data ('/' :: f.data) [] [f.data] h4
      (by rw [splitOnCh_sep_cons, splitOnCh_nosep hf]),
    List.append_nil]
  simp only [List.map_append, List.map_cons, List.map_nil, mkData]
  rfl

theorem normComps_jail (nm : String) (h1 : nm ≠ "") (h2 : nm ≠ ".")
    (h3 : nm ≠ "..") :
    normComps ["", "app", "api-resources", nm] = ["app", "api-resources", nm] := by
  simp [normComps, h1, h2, h3]

theorem normComps_jail_file (nm f : String) (h1 : nm ≠ "") (h2 : nm ≠ ".")
    (h3 : nm ≠ "..") (g1 : f ≠ "") (g2 : f ≠ ".") (g3 : f ≠ "..") :
    normComps ["", "app", "api-resources", nm, f] =
      ["app", "api-resources", nm, f] := by
  simp [normComps, h1, h2, h3, g1, g2, g3]

theorem joinComps_jail (nm : String) :
    joinComps ["app", "api-resources", nm] = "/app/api-resources/" ++ nm := by
  have hic : String.intercalate "/" ["app", "api-resources", nm] =
      ((("app" ++ "/") ++ "api-resources") ++ "/") ++ nm := rfl
  show "/" ++ String.intercalate "/" ["app", "api-resources", nm] = _
  rw [hic]
  apply strEq_of_data
  simp only [dataAppend, List.append_assoc]
  rfl

theorem presolve_jail (nm : String) (h1 : nm ≠ "") (h2 : nm ≠ ".")
    (h3 : nm ≠ "..") (h4 : ('/' : Char) ∉ nm.data) :
    presolve cwd0 ("/app/api-resources/" ++ nm) = "/app/api-resources/" ++ nm := by
  have hs : jsStartsWith ("/app/api-resources/" ++ nm) "/" = true := by
    show isPrefixCh ("/").data ("/app/api-resources/" ++ nm).data = true
    rw [dataAppend]
    exact isPrefixCh_extend (by decide) nm.data
  rw [presolve, if_pos hs, splitPath_jail nm h4, normComps_jail nm h1 h2 h3,
    joinComps_jail nm]

theorem startsWith_allowed (nm : String) :
    jsStartsWith ("/app/api-resources/" ++ nm) "/app/api-resources" = true := by
  show isPrefixCh ("/app/api-resources").data ("/app/api-resources/" ++ nm).data = true
  rw [dataAppend]
  exact isPrefixCh_extend (by decide) nm.data

theorem validatePath_jail (nm : String) (h1 : nm ≠ "") (h2 : nm ≠ ".")
    (h3 : nm ≠ "..") (h4 : ('/' : Char) ∉ nm.data) :
    validatePath cwd0 ("/app/api-resources/" ++ nm) =
      .ok ("/app/api-resources/" ++ nm) := by
  have hA : allowedBasePath cwd0 = "/app/api-resources" := by decide
  rw [validatePath, hA, presolve_jail nm h1 h2 h3 h4, startsWith_allowed nm]
  rfl

theorem pbasename_jail (nm : String) (h1 : nm ≠ "") (h4 : ('/' : Char) ∉ nm.data) :
    pbasename ("/app/api-resources/" ++ nm) = nm := by
  rw [pbasename, splitPath_jail nm h4]
  simp [h1]

theorem data_ne_nil_of_ne_empty {nm : String} (h1 : nm ≠ "") : nm.data ≠ [] := by
  intro hd
  apply h1
  rw [← mkData nm, hd]

theorem jsEndsWith_jail (nm : String) (h1 : nm ≠ "") (h4 : ('/' : Char) ∉ nm.data) :
    jsEndsWith ("/app/api-resources/" ++ nm) "/" = false := by
  show isPrefixCh ("/").data.reverse ("/app/api-resources/" ++ nm).data.reverse = false
  rw [dataAppend, List.reverse_append]
  cases hrev : nm.data.reverse with
  | nil => exact absurd (List.reverse_eq_nil_iff.mp hrev) (data_ne_nil_of_ne_empty h1)
  | cons c cs =>
    have hc : c ≠ '/' := by
      intro hcs
      apply h4
      rw [← hcs]
      exact List.mem_reverse.mp (hrev ▸ List.mem_cons_self c cs)
    simp [isPrefixCh, Ne.symm hc]

theorem lookup_jail_dir (nm : String) (h1 : nm ≠ "") (h2 : nm ≠ ".")
    (h3 : nm ≠ "..") (h4 : ('/' : Char) ∉ nm.data) :
    lookupNode (fs6p nm) ("/app/api-resources/" ++ nm) =
      some (.dir true (entriesOf
        [("f1.txt", .file "x" true mtime0),
         ("f2.txt", .file "x" true mtime0),
         ("f3.txt", .file "x" true mtime0)])) := by
  rw [lookupNode, splitPath_jail nm h4, normComps_jail nm h1 h2 h3]
  simp [fs6p, entriesOf, lookupGo, FsEntries.find]

theorem lookup_jail_f1 (nm : String) (h1 : nm ≠ "") (h2 : nm ≠ ".")
    (h3 : nm ≠ "..") (h4 : ('/' : Char) ∉ nm.data) :
    lookupNode (fs6p nm) ((("/app/api-resources/" ++ nm) ++ "/") ++ "f1.txt") =
      some (.file "x" true mtime0) := by
  rw [lookupNode, splitPath_jail_file nm "f1.txt" h4 (by decide),
    normComps_jail_file nm "f1.txt" h1 h2 h3 (by decide) (by decide) (by decide)]
  simp [fs6p, entriesOf, lookupGo, FsEntries.find]

theorem jailPath_ne_empty (nm : String) : ("/app/api-resources/" ++ nm) ≠ "" := by
  intro h
  have hd : ("/app/api-resources/" ++ nm).data = [] := by rw [h]
  rw [dataAppend] at hd
  exact absurd (List.append_eq_nil.mp hd).1 (by decide)

theorem listDirectory_jail (nm : String) (h1 : nm ≠ "") (h2 : nm ≠ ".")
    (h3 : nm ≠ "..") (h4 : ('/' : Char) ∉ nm.data) :
    listDirectory (fs6p nm) cwd0 ("/app/api-resources/" ++ nm) =
      (.ok [⟨"f1.txt", "file", (("/app/api-resources/" ++ nm) ++ "/") ++ "f1.txt"⟩,
            ⟨"f2.txt", "file", (("/app/api-resources/" ++ nm) ++ "/") ++ "f2.txt"⟩,
            ⟨"f3.txt", "file", (("/app/api-resources/" ++ nm) ++ "/") ++ "f3.txt"⟩],
       ["/app/api-resources/" ++ nm, "/app/api-resources/" ++ nm]) := by
  rw [listDirectory, jsOr, if_neg (jailPath_ne_empty nm), validatePath_jail nm h1 h2 h3 h4]
  simp [FsOut.bnd, liftFs, accessR, readdirFs, lookup_jail_dir nm h1 h2 h3 h4,
    entriesOf, FsEntries.toPairs, FsNode.isDir, pjoin, jsEndsWith_jail nm h1 h4,
    Except.mapError]

theorem readFile_jail_f1 (nm : String) (h1 : nm ≠ "") (h2 : nm ≠ ".")
    (h3 : nm ≠ "..") (h4 : ('/' : Char) ∉ nm.data) :
    readFileFs (fs6p nm) ((("/app/api-resources/" ++ nm) ++ "/") ++ "f1.txt") =
      .ok "x" := by
  rw [readFileFs, lookup_jail_f1 nm h1 h2 h3 h4]
  rfl

theorem stat_jail_f1 (nm : String) (h1 : nm ≠ "") (h2 : nm ≠ ".")
    (h3 : nm ≠ "..") (h4 : ('/' : Char) ∉ nm.data) :
    statFs (fs6p nm) ((("/app/api-resources/" ++ nm) ++ "/") ++ "f1.txt") =
      .ok ⟨1, false, mtime0⟩ := by
  rw [statFs, lookup_jail_f1 nm h1 h2 h3 h4]
  rfl

theorem sumFileBlock_jail (p : String) (cl : Nat) (hcl : 7921 ≤ cl) :
    sumFileBlock ⟨"f1.txt", "file", p⟩ ⟨1, false, mtime0⟩ "x" cl =
      "### üìÑ f1.txt\n- Size: 1 bytes\n- Type: .txt\n- *Content too large for summary*\n\n" := by
  rw [sumFileBlock, if_neg]
  · dsimp only
    decide
  · intro hand
    obtain ⟨ha, _⟩ := hand
    omega

theorem sumAll_jail (nm : String) (h1 : nm ≠ "") (h2 : nm ≠ ".")
    (h3 : nm ≠ "..") (h4 : ('/' : Char) ∉ nm.data)
    (hL : 7872 ≤ jsLength nm) :
    (summarizeAllFiles (fs6p nm) cwd0 ("/app/api-resources/" ++ nm)).1 =
      .ok ("üìÅ **Files Summary for " ++ nm ++ "**\n\n" ++ "üìä Found " ++ "3" ++ " files\n\n"
        ++ "\n‚ö†Ô∏è *Remaining files truncated to stay within processing limits*\n" ++ "üìã *Remaining files: " ++ "f1.txt, f2.txt, f3.txt" ++ "*") := by
  have hlhead : jsLength ("üìÅ **Files Summary for " ++ nm ++ "**\n\n" ++ "üìä Found " ++ "3" ++ " files\n\n") =
      49 + jsLength nm := by
    simp only [jsLength_append]
    rw [show jsLength "üìÅ **Files Summary for " = 25 from by decide,
      show jsLength "**\n\n" = 4 from by decide,
      show jsLength "üìä Found " = 11 from by decide,
      show jsLength "3" = 1 from by decide,
      show jsLength " files\n\n" = 8 from by decide]
    omega
  rw [summarizeAllFiles, jsOr, if_neg (jailPath_ne_empty nm),
    validatePath_jail nm h1 h2 h3 h4]
  dsimp only
  rw [listDirectory_jail nm h1 h2 h3 h4]
  dsimp only [FsOut.bnd]
  simp only [List.filter, List.length]
  simp only [show ("file" == "file") = true from rfl]
  rw [if_neg (show ¬(0 + 1 + 1 + 1 = 0) from by decide)]
  rw [pbasename_jail nm h1 h4]
  rw [show toString (3 : Nat) = "3" from rfl]
  rw [hlhead]
  rw [sumLoop.eq_def]
  dsimp only
  rw [readFile_jail_f1 nm h1 h2 h3 h4]
  dsimp only
  rw [stat_jail_f1 nm h1 h2 h3 h4]
  dsimp only
  rw [sumFileBlock_jail _ (49 + jsLength nm) (by omega)]
  rw [show jsLength "### üìÑ f1.txt\n- Size: 1 bytes\n- Type: .txt\n- *Content too large for summary*\n\n" = 80 from by decide]
  rw [if_pos (show 8000 < 49 + jsLength nm + 80 by omega)]
  dsimp only
  simp only [List.drop, List.map]
  rw [show String.intercalate ", " ["f1.txt", "f2.txt", "f3.txt"] =
    "f1.txt, f2.txt, f3.txt" from rfl]

theorem longDirName_len : jsLength longDirName = 8100 := by
  rw [jsLength, longDirName]
  exact List.length_replicate 8100 'a'

theorem longDirName_ne_empty : longDirName ≠ "" := by
  intro h
  have := longDirName_len
  rw [h] at this
  exact absurd this (by decide)

theorem longDirName_ne_dot : longDirName ≠ "." := by
  intro h
  have := longDirName_len
  rw [h] at this
  exact absurd this (by decide)

theorem longDirName_ne_dotdot : longDirName ≠ ".." := by
  intro h
  have := longDirName_len
  rw [h] at this
  exact absurd this (by decide)

theorem longDirName_no_slash : ('/' : Char) ∉ longDirName.data := by
  rw [longDirName]
  intro h
  exact absurd (List.eq_of_mem_replicate h) (by decide)

theorem sumAll_fs6_eq :
    (summarizeAllFiles fs6 cwd0 dirPath6).1 = .ok ((header6 ++ notice6) ++ names6) := by
  have h := sumAll_jail longDirName longDirName_ne_empty longDirName_ne_dot
    longDirName_ne_dotdot longDirName_no_slash (by rw [longDirName_len]; decide)
  rw [show fs6 = fs6p longDirName from rfl,
    show dirPath6 = "/app/api-resources/" ++ longDirName from rfl]
  refine Eq.trans h (congrArg Except.ok (strEq_of_data ?_))
  simp only [header6, notice6, names6, dataAppend, List.append_assoc]
  exact congrArg (fun t => "üìÅ **Files Summary for ".data ++ (longDirName.data ++ t)) (by decide)

theorem sumLoop_budget (fs : FsNode) (all : List DirItem) :
    ∀ (files : List DirItem) (i : Nat) (s : String) (l : Nat),
      l ≤ 8000 → ((sumLoop fs all files i s l).1).2 ≤ 8000 := by
  intro files
  induction files with
  | nil =>
    intro i s l hl
    simpa [sumLoop] using hl
  | cons f rest ih =>
    intro i s l hl
    rw [sumLoop.eq_def]
    dsimp only
    split
    · exact ih (i + 1) _ l hl
    · split
      · exact ih (i + 1) _ l hl
      · split
        · exact hl
        · next hb => exact ih (i + 1) _ _ (Nat.le_of_not_lt hb)

theorem fs6b_cap_eq :
    extractOk (summarizeAllFiles fs6b cwd0 "caps").1 =
      "üìÅ **Files Summary for caps**\n\nüìä Found 1 files\n\n### üìÑ big.txt\n- Size: 300 bytes\n- Type: .txt\n- Content:\n```\n" ++ String.mk (List.replicate 300 'b') ++ "\n```\n\n" := by
  decide

theorem capBlock_remaining :
    sumFileBlock ⟨"big.txt", "file", "/app/api-resources/caps/big.txt"⟩
      ⟨220, false, mtime0⟩ (String.mk (List.replicate 220 'b')) 7600 =
      "### üìÑ big.txt\n- Size: 220 bytes\n- Type: .txt\n- Preview:\n```\n" ++ String.mk (List.replicate 200 'b') ++ "...\n```\n- *Truncated (220 chars, 1 lines total)*\n\n" := by
  decide


theorem capBlock_500 :
    sumFileBlock ⟨"big.txt", "file", "/app/api-resources/caps/big.txt"⟩
      ⟨520, false, mtime0⟩ (String.mk (List.replicate 520 'b')) 53 =
      "### üìÑ " ++ "big.txt" ++ "\n" ++ "- Size: " ++ "520" ++ " bytes\n"
        ++ "- Type: " ++ ".txt" ++ "\n" ++ "- Preview:\n```\n"
        ++ String.mk (List.replicate 500 'b') ++ "...\n```\n"
        ++ "- *Truncated (" ++ "520" ++ " chars, " ++ "1" ++ " lines total)*\n\n" := by
  have hlen : jsLength (String.mk (List.replicate 520 'b')) = 520 := by
    rw [jsLength]
    exact List.length_replicate 520 'b'
  rw [sumFileBlock]
  dsimp only
  rw [if_pos ⟨by decide, by rw [hlen]; decide⟩]
  rw [if_neg (by rw [hlen]; decide)]
  rw [jsSubstring]
  rw [show (String.mk (List.replicate 520 'b')).data = List.replicate 520 'b' from rfl]
  rw [List.take_replicate]
  rw [show min (min (500 : Int) (8000 - ((53 : Nat) : Int) - 200)).toNat 520 = 500 from by decide]
  rw [hlen]
  rw [show toString (520 : Nat) = "520" from rfl]
  rw [show jsOr (pextname "big.txt") "no extension" = ".txt" from by decide]
  have hno : ('\n' : Char) ∉ List.replicate 520 'b' := by
    intro h
    exact absurd (List.eq_of_mem_replicate h) (by decide)
  rw [strSplit]
  rw [show (String.mk (List.replicate 520 'b')).data = List.replicate 520 'b' from rfl]
  rw [splitOnCh_nosep hno]
  rw [show ([List.replicate 520 'b'].map String.mk).length = 1 from rfl]
  rw [show toString (1 : Nat) = "1" from rfl]

/-- C6 (counterexample): `summarizeAllFiles` does not keep its whole output
within the 8000-character budget.  On a directory whose name is 8100
characters long the emitted header alone exceeds the budget, the loop
breaks at the first file, and the appended truncation notice and
remaining-file listing are not counted against the budget: the returned
summary is 8264 characters long. -/
theorem c6_budget_counterexample :
    8000 < jsLength (extractOk (summarizeAllFiles fs6 cwd0 dirPath6).1) := by
  rw [sumAll_fs6_eq]
  rw [show extractOk (.ok ((header6 ++ notice6) ++ names6)) =
    (header6 ++ notice6) ++ names6 from rfl]
  rw [jsLength_append, jsLength_append]
  have hh : jsLength header6 = 8149 := by
    simp only [header6, jsLength_append]
    rw [longDirName_len,
      show jsLength "üìÅ **Files Summary for " = 25 from by decide,
      show jsLength "**\n\n" = 4 from by decide,
      show jsLength "üìä Found 3 files\n\n" = 20 from by decide]
  rw [hh, show jsLength notice6 = 69 from by decide,
    show jsLength names6 = 46 from by decide]
  decide

/-- C6 (corrected): the running-length counter of `summarizeAllFiles`
never exceeds the 8000-character budget, but the emitted text itself can
(the truncation notice, the remaining-file listing and error blocks are
appended uncounted; `c6_budget_counterexample` exhibits an 8264-character
output).  The per-file content cap `min 500 (remaining - 200)` holds: a
300-character file is included in full, a 220-character file met at
running length 7600 is previewed to 200 characters, a 520-character file
met at running length 53 is previewed to 500 characters; and once a block
would push the counter past 8000 the loop stops, appending the notice and
the names of the files from the current one on. -/
theorem c6_summarize_budget :
    (∀ (fs : FsNode) (all files : List DirItem) (i : Nat) (s : String) (l : Nat),
        l ≤ 8000 → ((sumLoop fs all files i s l).1).2 ≤ 8000)
    ∧ ((summarizeAllFiles fs6 cwd0 dirPath6).1 = .ok ((header6 ++ notice6) ++ names6))
    ∧ (extractOk (summarizeAllFiles fs6b cwd0 "caps").1 =
      "üìÅ **Files Summary for caps**\n\nüìä Found 1 files\n\n### üìÑ big.txt\n- Size: 300 bytes\n- Type: .txt\n- Content:\n```\n" ++ String.mk (List.replicate 300 'b') ++ "\n```\n\n")
    ∧ (sumFileBlock ⟨"big.txt", "file", "/app/api-resources/caps/big.txt"⟩
      ⟨220, false, mtime0⟩ (String.mk (List.replicate 220 'b')) 7600 =
      "### üìÑ big.txt\n- Size: 220 bytes\n- Type: .txt\n- Preview:\n```\n" ++ String.mk (List.replicate 200 'b') ++ "...\n```\n- *Truncated (220 chars, 1 lines total)*\n\n")
    ∧ (sumFileBlock ⟨"big.txt", "file", "/app/api-resources/caps/big.txt"⟩
      ⟨520, false, mtime0⟩ (String.mk (List.replicate 520 'b')) 53 =
      "### üìÑ " ++ "big.txt" ++ "\n" ++ "- Size: " ++ "520" ++ " bytes\n"
        ++ "- Type: " ++ ".txt" ++ "\n" ++ "- Preview:\n```\n"
        ++ String.mk (List.replicate 500 'b') ++ "...\n```\n"
        ++ "- *Truncated (" ++ "520" ++ " chars, " ++ "1" ++ " lines total)*\n\n") :=
  ⟨fun fs all => sumLoop_budget fs all, sumAll_fs6_eq, fs6b_cap_eq,
    capBlock_remaining, capBlock_500⟩

/-- Witness for C6: the budget invariant applied at a concrete input whose
hypothesis holds. -/
theorem c6_summarize_budget_witness :
    (0 : Nat) ≤ 8000 ∧ ((sumLoop fs6b [] [] 0 "" 0).1).2 ≤ 8000 :=
  ⟨by decide, c6_summarize_budget.1 fs6b [] [] 0 "" 0 (by decide)⟩
